import Mathlib

/-!
# Nomad service dependencies of consul-template

A shallow embedding of `dependency/nomad_service.go` and
`dependency/nomad_services.go`: the query-string grammar (a regular expression
with named groups, matched with Go's leftmost-first backtracking priority), the
two query types with their constructors, `String`, `Stop` and `Fetch`, and
the library routine `sort.Stable` that `Fetch` calls; and of `config/nomad.go`:
`Copy`, `Merge` and `Finalize` of the Nomad connection settings, whose pointer
fields are modelled by their values (`none` for nil).

Go strings are modelled by `String`, the matcher works on `List Char`; every
character class of the grammar is ASCII, so a text that matches is the same
sequence of characters in both readings.  A
channel is modelled by its state (nil, open, closed); nothing in the two files
ever sends on `stopCh`, so its buffer is always empty.  The `log.Printf` calls
of `Fetch` (and the URL that is built only to be logged) have no effect on the
returned values and are left out.
-/

namespace ConsulTemplate

/-! ## Regular expressions (the fragment of Go's `regexp` the two files use) -/

/-- Go's `[[:word:]]` class: ASCII letters, ASCII digits and the underscore. -/
def isWord (c : Char) : Bool := c.isAlphanum || c == '_'

/-- Abstract syntax of the regular expressions used by the two query grammars:
`\A`, `\z`, a literal character, `[class]+`, concatenation, `(...)?` and a
capture group (named by `(?P<name>...)`, or unnamed with name `""`). -/
inductive Regex where
  | beginText : Regex
  | endText : Regex
  | lit (c : Char) : Regex
  | plus (cls : Char → Bool) : Regex
  | cat (a b : Regex) : Regex
  | quest (a : Regex) : Regex
  | capture (name : String) (a : Regex) : Regex

/-- Number of capture groups of an expression. -/
def Regex.numCap : Regex → Nat
  | .cat a b => a.numCap + b.numCap
  | .quest a => a.numCap
  | .capture _ a => a.numCap + 1
  | _ => 0

/-- Names of the capture groups in the order of their opening parenthesis. -/
def Regex.capNames : Regex → List String
  | .cat a b => a.capNames ++ b.capNames
  | .quest a => a.capNames
  | .capture n a => n :: a.capNames
  | _ => []

/-- Go's `(*Regexp).SubexpNames`: entry 0 (the whole match) is always `""`. -/
def Regex.SubexpNames (re : Regex) : List String := "" :: re.capNames

/-- All ways `[cls]+` can match at the start of the input, as pairs (matched
text, remaining input), the greedy (longest) one first. -/
def plusRuns (cls : Char → Bool) : List Char → List (List Char × List Char)
  | [] => []
  | c :: cs =>
    if cls c then (plusRuns cls cs).map (fun r => (c :: r.1, r.2)) ++ [([c], cs)] else []

/-- One way of matching: the text consumed, the input left, and the text of
every capture group that took part (keyed by group number). -/
structure Thread where
  consumed : List Char
  rest : List Char
  caps : List (Nat × List Char)

/-- Backtracking matcher: all ways the expression matches at the start of
`inp` (which begins at offset `pos` of the subject), in the order a
backtracking search tries them; `g` is the number of the next capture group. -/
def Regex.run : Regex → Nat → Nat → List Char → List Thread
  | .beginText, _, pos, inp => if pos = 0 then [⟨[], inp, []⟩] else []
  | .endText, _, _, inp => if inp.isEmpty then [⟨[], inp, []⟩] else []
  | .lit c, _, _, inp =>
    match inp with
    | x :: xs => if x = c then [⟨[x], xs, []⟩] else []
    | [] => []
  | .plus cls, _, _, inp => (plusRuns cls inp).map (fun r => ⟨r.1, r.2, []⟩)
  | .cat a b, g, pos, inp =>
    (a.run g pos inp).flatMap (fun t =>
      (b.run (g + a.numCap) (pos + t.consumed.length) t.rest).map (fun u =>
        ⟨t.consumed ++ u.consumed, u.rest, t.caps ++ u.caps⟩))
  | .quest a, g, pos, inp => a.run g pos inp ++ [⟨[], inp, []⟩]
  | .capture _ a, g, pos, inp =>
    (a.run (g + 1) pos inp).map (fun t => ⟨t.consumed, t.rest, (g, t.consumed) :: t.caps⟩)

/-- Leftmost-first search: the first way of matching at the earliest offset
where the expression matches at all. -/
def Regex.searchFrom (re : Regex) : Nat → List Char → Option Thread
  | pos, [] => (re.run 1 pos []).head?
  | pos, c :: cs =>
    match (re.run 1 pos (c :: cs)).head? with
    | some t => some t
    | none => re.searchFrom (pos + 1) cs

/-- Text of capture group `i` in a match, empty when the group did not take
part. -/
def Thread.group (t : Thread) (i : Nat) : List Char := (t.caps.lookup i).getD []

/-- Submatch slice of a match: the whole match, then the text of each group,
`""` for a group that did not take part. -/
def Regex.submatch (re : Regex) (t : Thread) : List String :=
  String.mk t.consumed :: (List.range re.numCap).map (fun i => String.mk (t.group (i + 1)))

/-- Go's `(*Regexp).FindStringSubmatch`: the submatches of the leftmost
match, if any. -/
def Regex.FindStringSubmatch (re : Regex) (q : String) : Option (List String) :=
  (re.searchFrom 0 q.data).map re.submatch

/-- Go's `(*Regexp).MatchString`. -/
def Regex.MatchString (re : Regex) (q : String) : Bool :=
  (re.searchFrom 0 q.data).isSome

/-- Assignment `m[k] = v` on a Go `map[string]string`, kept as an association
list with one entry per key. -/
def mapSet (m : List (String × String)) (k v : String) : List (String × String) :=
  (k, v) :: m.filter (fun e => e.1 != k)

/-- Read `m[k]` of a Go `map[string]string`: the zero value `""` when absent. -/
def mapGet (m : List (String × String)) (k : String) : String :=
  (m.lookup k).getD ""

/-- Modelled from the spec: `regexpMatch` is a helper of the package that is
not in these files; it returns the map from group name to matched text of the
first match (the callers read `m["tag"]`, `m["name"]`, `m["region"]` of the
`tag.name@region` grammar), unnamed groups left out, and the empty map
when there is no match. -/
def regexpMatch (re : Regex) (q : String) : List (String × String) :=
  match re.FindStringSubmatch q with
  | none => []
  | some m =>
    (List.zip re.SubexpNames m).foldl
      (fun acc p => if p.1 != "" then mapSet acc p.1 p.2 else acc) []

/-- Character class of a tag: word characters, `=`, `:`, `.`, `-`, `_`. -/
def tagCls (c : Char) : Bool :=
  isWord c || c == '=' || c == ':' || c == '.' || c == '-' || c == '_'

/-- Character class of a service name: word characters, `-`, `_`. -/
def nameCls (c : Char) : Bool := isWord c || c == '-' || c == '_'

/-- Character class of a region: word characters, `.`, `-`, `_`. -/
def regionCls (c : Char) : Bool := isWord c || c == '.' || c == '-' || c == '_'

/-- Modelled from the spec: the constant `tagRe` is declared outside these
files; by the grammar `[<tag>.]<name>[@<region>]` it is an optional group, a
non-empty tag (which may contain `:` and `.`) followed by a dot. -/
def tagRe : Regex := .quest (.capture "" (.cat (.capture "tag" (.plus tagCls)) (.lit '.')))

/-- Modelled from the spec: the constant `serviceNameRe` is declared outside
these files; the required, non-empty name. -/
def serviceNameRe : Regex := .capture "name" (.plus nameCls)

/-- Modelled from the spec: the constant `regionRe` is declared outside these
files; an optional group, `@` followed by a non-empty region. -/
def regionRe : Regex :=
  .quest (.capture "" (.cat (.lit '@') (.capture "region" (.plus regionCls))))

/-- The expression `\A` + tagRe + serviceNameRe + regionRe + `\z`. -/
def NomadServiceQueryRe : Regex :=
  .cat .beginText (.cat tagRe (.cat serviceNameRe (.cat regionRe .endText)))

/-- The expression `\A` + regionRe + `\z`. -/
def NomadServicesQueryRe : Regex := .cat .beginText (.cat regionRe .endText)

/-- The tag part `[<tag>.]` of a query text, nothing for the empty tag. -/
def optTag (tg : List Char) : List Char := if tg = [] then [] else tg ++ ['.']

/-- The region part `[@<region>]` of a query text, nothing for the empty region. -/
def optRegion (rg : List Char) : List Char := if rg = [] then [] else '@' :: rg

/-- The input reads `[<tag>.]<name>[@<region>]` with the three components in
their character classes and the name non-empty. -/
def IsParse (inp tg n rg : List Char) : Prop :=
  (∀ c ∈ tg, tagCls c = true) ∧ n ≠ [] ∧ (∀ c ∈ n, nameCls c = true) ∧
    (∀ c ∈ rg, regionCls c = true) ∧ inp = optTag tg ++ n ++ optRegion rg

/-- The query text `[t "."] n ["@" r]` written from an optional tag, a name
and an optional region. -/
def queryText (t : Option String) (n : String) (r : Option String) : String :=
  (match t with
    | some t => t ++ "."
    | none => "") ++ n ++
  (match r with
    | some r => "@" ++ r
    | none => "")

/-! ## Errors, channels, options and the Nomad client -/

/-- Error values the two files return. -/
inductive DepError where
  /-- The package variable `ErrStopped`. -/
  | stopped : DepError
  /-- The error of `fmt.Errorf("<kind>: invalid format: %q", s)`. -/
  | invalidFormat (kind : String) (input : String) : DepError
  /-- An error produced by the Nomad API client, with its message. -/
  | backend (msg : String) : DepError
  /-- The error of `errors.Wrap(cause, msg)`. -/
  | wrap (cause : DepError) (msg : String) : DepError
deriving DecidableEq, Repr

/-- Message (`Error()`) of an error; `leafText` gives the message of the errors
that are not built by `errors.Wrap`, whose text is fixed outside these files.
A wrapped error reads `msg: cause`. -/
def DepError.message (leafText : DepError → String) : DepError → String
  | .wrap cause msg => msg ++ ": " ++ cause.message leafText
  | e => leafText e

/-- The error directly underneath a wrapped error (`Cause`/`Unwrap`). -/
def DepError.cause : DepError → Option DepError
  | .wrap c _ => some c
  | _ => none

/-- State of a Go channel on which nothing is ever sent. -/
inductive Chan where
  | nil : Chan
  | opened : Chan
  | closed : Chan
deriving DecidableEq, Repr

/-- Run-time panics of the built-in `close`. -/
inductive Panic where
  | closeOfNilChannel : Panic
  | closeOfClosedChannel : Panic
deriving DecidableEq, Repr

/-- The built-in `close(ch)`. -/
def Chan.close : Chan → Except Panic Chan
  | .nil => .error .closeOfNilChannel
  | .opened => .ok .closed
  | .closed => .error .closeOfClosedChannel

/-- Whether `case <-ch` of a `select` with a `default` branch is taken: a
receive is ready on a closed channel only (the buffer is always empty). -/
def Chan.recvReady : Chan → Bool
  | .closed => true
  | _ => false

/-- Modelled from the spec: `QueryOptions` is declared outside these files;
a version cursor, a maximum wait duration and the scoping fields. -/
structure QueryOptions where
  WaitIndex : Nat := 0
  WaitTime : Int := 0
  Region : String := ""
  Namespace : String := ""
  Token : String := ""
deriving DecidableEq, Repr

/-- Modelled from the spec: `QueryOptions.Merge` is declared outside these
files; it overlays the non-empty fields of `o` onto a copy of the receiver. -/
def QueryOptions.Merge (q o : QueryOptions) : QueryOptions :=
  { WaitIndex := if o.WaitIndex ≠ 0 then o.WaitIndex else q.WaitIndex
    WaitTime := if o.WaitTime ≠ 0 then o.WaitTime else q.WaitTime
    Region := if o.Region ≠ "" then o.Region else q.Region
    Namespace := if o.Namespace ≠ "" then o.Namespace else q.Namespace
    Token := if o.Token ≠ "" then o.Token else q.Token }

/-- Response envelope of a fetch: `LastIndex` and `LastContact`. -/
structure ResponseMetadata where
  LastIndex : Nat := 0
  LastContact : Int := 0
deriving DecidableEq, Repr

/-- Fields of the Nomad API's `QueryMeta` that `Fetch` reads. -/
structure QueryMeta where
  LastIndex : Nat
  LastContact : Int
deriving DecidableEq, Repr

/-- Fields of the Nomad API's `ServiceRegistration` that `Fetch` reads. -/
structure ServiceRegistration where
  ID : String
  ServiceName : String
  NodeID : String
  Address : String
  Port : Int
  Datacenter : String
  Tags : List String
  JobID : String
  AllocID : String
deriving DecidableEq, Repr

/-- Fields of the Nomad API's `ServiceRegistrationStub` that `Fetch` reads. -/
structure ServiceRegistrationStub where
  ServiceName : String
  Tags : List String
deriving DecidableEq, Repr

/-- Fields of the Nomad API's `ServiceRegistrationListStub` that `Fetch` reads. -/
structure ServiceRegistrationListStub where
  Namespace : String
  Services : List ServiceRegistrationStub
deriving DecidableEq, Repr

/-- The client handle as `Fetch` uses it: the configured Nomad namespace and
the two API calls `ServiceRegistrations().Get(name, opts.ToNomadOpts())` and
`ServiceRegistrations().List(opts.ToNomadOpts())`, each taken as a function of
the merged query options (the conversion `ToNomadOpts` is part of it). -/
structure ClientSet where
  nomadNamespace : String
  get : String → QueryOptions → Except DepError (List ServiceRegistration × QueryMeta)
  list : QueryOptions → Except DepError (List ServiceRegistrationListStub × QueryMeta)

/-- A request issued to the Nomad client. -/
inductive Request where
  | get (name : String) (opts : QueryOptions) : Request
  | list (opts : QueryOptions) : Request
deriving DecidableEq, Repr

/-- Kind of a dependency; `TypeNomad` is the one these files return, the
others are declared outside them. -/
inductive DependencyType where
  | TypeNomad : DependencyType
  | TypeOther (n : Nat) : DependencyType
deriving DecidableEq, Repr

/-- What a call of `Fetch` returns, `(interface{}, *ResponseMetadata, error)`
with `none` for nil, together with the requests it issued to the client. -/
structure FetchResult (α : Type) where
  requests : List Request
  value : Option α
  rm : Option ResponseMetadata
  err : Option DepError

/-- The slice type `ServiceTags` of the package, a `[]string`. -/
abbrev ServiceTags : Type := List String

deriving instance DecidableEq for Except

/-! ## `nomad_service.go` -/

/-- A service entry in Nomad. -/
structure NomadService where
  ID : String
  Name : String
  Node : String
  Address : String
  Port : Int
  Datacenter : String
  Tags : ServiceTags
  JobID : String
  AllocID : String
deriving DecidableEq, Repr

/-- The representation of a requested Nomad services dependency. -/
structure NomadServiceQuery where
  stopCh : Chan
  region : String
  name : String
  tag : String
deriving DecidableEq, Repr

/-- Constructor `NewNomadServiceQuery`. -/
def NewNomadServiceQuery (s : String) : Except DepError NomadServiceQuery :=
  if !NomadServiceQueryRe.MatchString s then
    .error (.invalidFormat "nomad.service" s)
  else
    let m := regexpMatch NomadServiceQueryRe s
    .ok { stopCh := .opened
          region := mapGet m "region"
          name := mapGet m "name"
          tag := mapGet m "tag" }

/-- Method `NomadServiceQuery.CanShare`. -/
def NomadServiceQuery.CanShare (_d : NomadServiceQuery) : Bool := true

/-- Method `NomadServiceQuery.String`; `fmt.Sprintf("nomad.service(%s)", name)`
puts `name` between the two literal parts. -/
def NomadServiceQuery.String (d : NomadServiceQuery) : String :=
  let name := d.name
  let name := if d.tag ≠ "" then d.tag ++ "." ++ name else name
  let name := if d.region ≠ "" then name ++ "@" ++ d.region else name
  "nomad.service(" ++ name ++ ")"

/-- Method `NomadServiceQuery.Stop`: `close(d.stopCh)`. -/
def NomadServiceQuery.Stop (d : NomadServiceQuery) : Except Panic NomadServiceQuery :=
  match d.stopCh.close with
  | .error p => .error p
  | .ok ch => .ok { d with stopCh := ch }

/-- Method `NomadServiceQuery.Type`. -/
def NomadServiceQuery.Type (_d : NomadServiceQuery) : DependencyType := .TypeNomad

/-- Method `NomadServiceQuery.Fetch`; `sortTags` stands for the package helper
`deepCopyAndSortTags`, which is not in these files. -/
def NomadServiceQuery.Fetch (sortTags : ServiceTags → ServiceTags)
    (d : NomadServiceQuery) (client : ClientSet) (opts : QueryOptions) :
    FetchResult (List NomadService) :=
  if d.stopCh.recvReady then
    { requests := [], value := none, rm := none, err := some .stopped }
  else
    let opts := opts.Merge { Region := d.region }
    match client.get d.name opts with
    | .error err =>
      { requests := [.get d.name opts], value := none, rm := none,
        err := some (.wrap err d.String) }
    | .ok (entries, qm) =>
      let services := entries.map (fun s =>
        ({ ID := s.ID
           Name := s.ServiceName
           Node := s.NodeID
           Address := s.Address
           Port := s.Port
           Datacenter := s.Datacenter
           Tags := sortTags s.Tags
           JobID := s.JobID
           AllocID := s.AllocID } : NomadService))
      let rm : ResponseMetadata := { LastIndex := qm.LastIndex }
      { requests := [.get d.name opts], value := some services, rm := some rm, err := none }

/-! ## `nomad_services.go` -/

/-- A stub service entry in Nomad. -/
structure NomadServicesSnippet where
  Name : String
  Tags : ServiceTags
deriving DecidableEq, Repr

/-- Method `nomadSortableSnippet.Less`, on the two elements it compares. -/
def nomadSortableSnippet.Less (a b : NomadServicesSnippet) : Bool :=
  if a.Name ≤ b.Name then true else false

/-- The representation of a requested Nomad service dependency. -/
structure NomadServicesQuery where
  stopCh : Chan
  region : String
deriving DecidableEq, Repr

/-- Constructor `NewNomadServicesQuery`. -/
def NewNomadServicesQuery (s : String) : Except DepError NomadServicesQuery :=
  if !NomadServicesQueryRe.MatchString s then
    .error (.invalidFormat "nomad.services" s)
  else
    let m := regexpMatch NomadServicesQueryRe s
    .ok { stopCh := .opened
          region := mapGet m "region" }

/-- Method `NomadServicesQuery.CanShare`. -/
def NomadServicesQuery.CanShare (_d : NomadServicesQuery) : Bool := true

/-- Method `NomadServicesQuery.String`. -/
def NomadServicesQuery.String (d : NomadServicesQuery) : String :=
  if d.region ≠ "" then "nomad.services(@" ++ d.region ++ ")" else "nomad.services"

/-- Method `NomadServicesQuery.Stop`: `close(d.stopCh)`. -/
def NomadServicesQuery.Stop (d : NomadServicesQuery) : Except Panic NomadServicesQuery :=
  match d.stopCh.close with
  | .error p => .error p
  | .ok ch => .ok { d with stopCh := ch }

/-- Method `NomadServicesQuery.Type`. -/
def NomadServicesQuery.Type (_d : NomadServicesQuery) : DependencyType := .TypeNomad

/-- A client whose two API calls fail with the error `e`. -/
def failingClient (e : DepError) : ClientSet :=
  { nomadNamespace := "default"
    get := fun _ _ => .error e
    list := fun _ => .error e }

/-- A client whose `Get` fails with the error `e` while its `List` answers
with no namespace. -/
def getFailingClient (e : DepError) : ClientSet :=
  { nomadNamespace := "default"
    get := fun _ _ => .error e
    list := fun _ => .ok ([], { LastIndex := 7, LastContact := 5 }) }

/-- A client whose `List` fails with the error `e` while its `Get` answers
with no entry. -/
def listFailingClient (e : DepError) : ClientSet :=
  { nomadNamespace := "default"
    get := fun _ _ => .ok ([], { LastIndex := 7, LastContact := 5 })
    list := fun _ => .error e }

/-- A client whose two API calls succeed with the given entries, namespace
lists and query metadata. -/
def answeringClient (entries : List ServiceRegistration)
    (namespaces : List ServiceRegistrationListStub) (qm : QueryMeta) : ClientSet :=
  { nomadNamespace := "default"
    get := fun _ _ => .ok (entries, qm)
    list := fun _ => .ok (namespaces, qm) }

/-- The loop of `Fetch` that selects the services of the first namespace entry
equal to the client's namespace; no entry leaves the nil slice. -/
def selectNamespace (ns : String) :
    List ServiceRegistrationListStub → List ServiceRegistrationStub
  | [] => []
  | e :: es => if e.Namespace = ns then e.Services else selectNamespace ns es

/-- Method `NomadServicesQuery.Fetch`; `sortTags` stands for the package
helper `deepCopyAndSortTags` and `stable` for the library routine
`sort.Stable` driven by a comparison of elements, neither being in these
files. -/
def NomadServicesQuery.Fetch (sortTags : ServiceTags → ServiceTags)
    (stable : (NomadServicesSnippet → NomadServicesSnippet → Bool) →
      List NomadServicesSnippet → List NomadServicesSnippet)
    (d : NomadServicesQuery) (clients : ClientSet) (opts : QueryOptions) :
    FetchResult (List NomadServicesSnippet) :=
  if d.stopCh.recvReady then
    { requests := [], value := none, rm := none, err := some .stopped }
  else
    let opts := opts.Merge { Region := d.region }
    match clients.list opts with
    | .error err =>
      { requests := [.list opts], value := none, rm := none,
        err := some (.wrap err d.String) }
    | .ok (namespaces, qm) =>
      let entries := selectNamespace clients.nomadNamespace namespaces
      let services := entries.map (fun s =>
        ({ Name := s.ServiceName, Tags := sortTags s.Tags } : NomadServicesSnippet))
      let services := stable nomadSortableSnippet.Less services
      let rm : ResponseMetadata :=
        { LastIndex := qm.LastIndex, LastContact := qm.LastContact }
      { requests := [.list opts], value := some services, rm := some rm, err := none }


/-! ## `config/nomad.go` -/

/-- A non-nil `*http.Client`: the package variable `http.DefaultClient`, or
another client told apart by an identifier. -/
inductive HttpClient where
  | DefaultClient : HttpClient
  | other (id : Nat) : HttpClient
deriving DecidableEq, Repr

/-- The struct `NomadConfig`; a nil pointer field is `none`, a pointer to a
value is `some` of the value. -/
structure NomadConfig where
  Address : Option String := none
  Namespace : Option String := none
  Token : Option String := none
  AuthUsername : Option String := none
  AuthPassword : Option String := none
  HttpClient : Option HttpClient := none
deriving DecidableEq, Repr

/-- Function `DefaultNomadConfig`: a pointer to the empty struct. -/
def DefaultNomadConfig : Option NomadConfig := some {}

/-- Method `NomadConfig.Copy`, on a receiver that may be nil. -/
def NomadConfig.Copy : Option NomadConfig → Option NomadConfig
  | none => none
  | some n =>
    some { Address := n.Address
           Namespace := n.Namespace
           Token := n.Token
           AuthUsername := n.AuthUsername
           AuthPassword := n.AuthPassword
           HttpClient := n.HttpClient }

/-- Method `NomadConfig.Merge`, on a receiver and an argument that may be nil. -/
def NomadConfig.Merge (n o : Option NomadConfig) : Option NomadConfig :=
  match n, o with
  | none, none => none
  | none, some _ => NomadConfig.Copy o
  | some _, none => NomadConfig.Copy n
  | some _, some o =>
    (NomadConfig.Copy n).map (fun r =>
      let r := if o.Address.isSome then { r with Address := o.Address } else r
      let r := if o.Namespace.isSome then { r with Namespace := o.Namespace } else r
      let r := if o.Token.isSome then { r with Token := o.Token } else r
      let r := if o.AuthUsername.isSome then { r with AuthUsername := o.AuthUsername } else r
      let r := if o.AuthPassword.isSome then { r with AuthPassword := o.AuthPassword } else r
      let r := if o.HttpClient.isSome then { r with HttpClient := o.HttpClient } else r
      r)

/-- Modelled from the spec: `stringFromEnv` is a helper of package `config`
that is not in this file; connection settings default from environment
variables, so it returns a pointer (never nil) to the value of the first
listed variable that is set to a non-empty text, and to the default when none
is.  `getenv` is the process environment, `""` for an unset variable. -/
def stringFromEnv (getenv : String → String) (list : List String) (dflt : String) :
    Option String :=
  match list.find? (fun s => getenv s != "") with
  | some s => some (getenv s)
  | none => some dflt

/-- Method `NomadConfig.Finalize` on a non-nil receiver: the receiver after the
call, under the process environment `getenv`.  The package helper `String(s)`
returns a pointer to `s`. -/
def NomadConfig.Finalize (getenv : String → String) (n : NomadConfig) : NomadConfig :=
  let n := if n.Address.isNone then
    { n with Address := stringFromEnv getenv ["NOMAD_ADDR"] "" } else n
  let n := if n.Namespace.isNone then
    { n with Namespace := stringFromEnv getenv ["NOMAD_NAMESPACE"] "" } else n
  let n := if n.Token.isNone then
    { n with Token := stringFromEnv getenv ["NOMAD_TOKEN"] "" } else n
  let n := if n.AuthUsername.isNone then { n with AuthUsername := some "" } else n
  let n := if n.AuthPassword.isNone then { n with AuthPassword := some "" } else n
  let n := if n.HttpClient.isNone then { n with HttpClient := some .DefaultClient } else n
  n


/-- Modelled from the spec: `deepCopyAndSortTags` is a helper of the package
that is not in these files; it returns a sorted copy of the tags, in the
order of Go strings. -/
def deepCopyAndSortTags (tags : ServiceTags) : ServiceTags :=
  List.insertionSort (fun a b => a ≤ b) tags

/-- The record that `NomadServiceQuery.Fetch` builds from one entry of the
backend response. -/
def serviceOfRegistration (s : ServiceRegistration) : NomadService :=
  { ID := s.ID
    Name := s.ServiceName
    Node := s.NodeID
    Address := s.Address
    Port := s.Port
    Datacenter := s.Datacenter
    Tags := deepCopyAndSortTags s.Tags
    JobID := s.JobID
    AllocID := s.AllocID }

/-- A backend entry used in examples: the service `web` with two tags. -/
def sampleRegistration : ServiceRegistration :=
  { ID := "id-1", ServiceName := "web", NodeID := "node-1", Address := "10.0.0.1",
    Port := 8080, Datacenter := "dc1", Tags := ["b", "a"], JobID := "job", AllocID := "alloc" }


/-! ## The library routine `sort.Stable`

`sort.Stable(data)` of Go's standard library, as `NomadServicesQuery.Fetch`
calls it: insertion sort on blocks of 20 elements, then rounds of `symMerge`
on neighbouring blocks of doubling size.  The slice is a list, `less` is
`data.Less` read on the elements, and every data movement is made of
`data.Swap` calls whose net effect on the slice is what the definitions
below return. -/

/-- The call `data.Less(i, j)` on the slice `w`. -/
def sort.lessAt {α : Type} (less : α → α → Bool) (w : List α) (i j : Nat) : Bool :=
  match w[i]?, w[j]? with
  | some x, some y => less x y
  | _, _ => false

/-- Inner loop of `insertionSort`,
`for j := i; j > a && data.Less(j, j-1); j-- { data.Swap(j, j-1) }`:
the element `x` moves left past every neighbour `y` with `less x y`.  The part
of the block left of `x` is given from right to left, and so is the result. -/
def sort.insertLeft {α : Type} (less : α → α → Bool) (x : α) : List α → List α
  | [] => [x]
  | y :: ys => if less x y then y :: sort.insertLeft less x ys else x :: y :: ys

/-- Routine `insertionSort` on one block. -/
def sort.insertionSort {α : Type} (less : α → α → Bool) (l : List α) : List α :=
  (l.foldl (fun acc x => sort.insertLeft less x acc) []).reverse

/-- The binary search loop
`for i < j { h := int(uint(i+j) >> 1); if p(h) { i = h + 1 } else { j = h } }`,
returning the final `i`; `fuel` bounds the number of rounds. -/
def sort.search (p : Nat → Bool) : Nat → Nat → Nat → Nat
  | 0, i, _ => i
  | fuel + 1, i, j =>
    if i < j then
      if p ((i + j) / 2) then sort.search p fuel ((i + j) / 2 + 1) j
      else sort.search p fuel i ((i + j) / 2)
    else i

/-- Routine `rotate(data, a, m, b)`: the neighbouring blocks `data[a:m]` and
`data[m:b]` change places. -/
def sort.rotate {α : Type} (w : List α) (a m b : Nat) : List α :=
  w.take a ++ (w.drop m).take (b - m) ++ (w.drop a).take (m - a) ++ w.drop b

/-- The binary search of `symMerge` in its general case, on the segment
`w = data[a:b]` with the indices counted from `a`: the final `start`. -/
def sort.symStart {α : Type} (less : α → α → Bool) (w : List α) (m : Nat) : Nat :=
  let mid := w.length / 2
  let n := mid + m
  let start := if m > mid then n - w.length else 0
  let r := if m > mid then mid else m
  let p := n - 1
  sort.search (fun c => !sort.lessAt less w (p - c) c) (r - start) start r

/-- Routine `symMerge(data, a, m, b)` on the segment `w = data[a:b]`, with the
indices counted from `a`, so that `w[0:m]` and `w[m:]` are the two blocks;
`fuel` bounds the depth of the recursion. -/
def sort.symMerge {α : Type} (less : α → α → Bool) : Nat → List α → Nat → List α
  | 0, w, _ => w
  | fuel + 1, w, m =>
    if m = 1 then
      let i := sort.search (fun h => sort.lessAt less w h 0) (w.length - m) m w.length
      (w.drop 1).take (i - 1) ++ w.take 1 ++ w.drop i
    else if w.length - m = 1 then
      let i := sort.search (fun h => !sort.lessAt less w m h) m 0 m
      w.take i ++ w.drop m ++ (w.drop i).take (m - i)
    else
      let mid := w.length / 2
      let n := mid + m
      let start := sort.symStart less w m
      let end_ := n - start
      let w1 := if start < m ∧ m < end_ then sort.rotate w start m end_ else w
      let left := w1.take mid
      let right := w1.drop mid
      let left := if 0 < start ∧ start < mid then sort.symMerge less fuel left start else left
      let right :=
        if mid < end_ ∧ end_ < w.length then sort.symMerge less fuel right (end_ - mid)
        else right
      left ++ right

/-- The blocks `data[0:k]`, `data[k:2k]`, ... of a slice, the last one
possibly shorter; `fuel` bounds their number. -/
def sort.blocks {α : Type} (k : Nat) : Nat → List α → List (List α)
  | 0, _ => []
  | fuel + 1, w => if w.isEmpty then [] else w.take k :: sort.blocks k fuel (w.drop k)

/-- One round of `stable`: `symMerge` on each pair of neighbouring blocks, a
last block without a neighbour being left as it is. -/
def sort.mergeBlocks {α : Type} (less : α → α → Bool) : List (List α) → List (List α)
  | x :: y :: rest =>
    sort.symMerge less (x.length + y.length) (x ++ y) x.length :: sort.mergeBlocks less rest
  | l => l

/-- The loop `for blockSize < n` of `stable`: rounds of merging until one
block is left. -/
def sort.mergeRounds {α : Type} (less : α → α → Bool) : Nat → List (List α) → List (List α)
  | 0, l => l
  | fuel + 1, l =>
    if l.length ≤ 1 then l else sort.mergeRounds less fuel (sort.mergeBlocks less l)

/-- Routine `sort.Stable`. -/
def sort.Stable {α : Type} (less : α → α → Bool) (w : List α) : List α :=
  (sort.mergeRounds less w.length
    ((sort.blocks 20 w.length w).map (sort.insertionSort less))).flatten

/-- The plain ordering key of a snippet, name then tag, in the lexicographic
order of the pair. -/
def snippetKey (a : NomadServicesSnippet) : Lex (String × List String) :=
  toLex (a.Name, a.Tags)

/-- A standard stable sort on the plain ordering key (name, then tag): the
insertion sort that keeps snippets of equal key in their order. -/
def sortByNameThenTag (l : List NomadServicesSnippet) : List NomadServicesSnippet :=
  l.insertionSort (fun a b => snippetKey a ≤ snippetKey b)

/-- A namespace list used in examples: `default` with the services `web` and
`api`. -/
def sampleNamespaces : List ServiceRegistrationListStub :=
  [{ Namespace := "other", Services := [{ ServiceName := "db", Tags := [] }] },
   { Namespace := "default",
     Services := [{ ServiceName := "web", Tags := [] }, { ServiceName := "api", Tags := [] }] }]


/-- An environment used in examples: `NOMAD_ADDR` is set, every other
variable is unset. -/
def sampleEnv (name : String) : String :=
  if name = "NOMAD_ADDR" then "http://env:4646" else ""

/-! ## Lemmas on the matcher -/

theorem mem_plusRuns (cls : Char → Bool) (l a r : List Char) :
    (a, r) ∈ plusRuns cls l ↔ a ≠ [] ∧ (∀ c ∈ a, cls c = true) ∧ l = a ++ r := by
  induction l generalizing a with
  | nil => 
    simp only [plusRuns, List.not_mem_nil, false_iff]
    rintro ⟨h1, _, h3⟩
    cases a with
    | nil => exact h1 rfl
    | cons x xs => simp at h3
  | cons c cs ih =>
    simp only [plusRuns]
    split
    · rename_i hc
      simp only [List.mem_append, List.mem_map, List.mem_singleton, Prod.mk.injEq, Prod.exists]
      constructor
      · rintro (⟨a1, r1, h, rfl, rfl⟩ | ⟨rfl, rfl⟩)
        · obtain ⟨_, h2, h3⟩ := (ih a1).1 h
          refine ⟨by simp, ?_, by simp [h3]⟩
          intro x hx
          rcases List.mem_cons.1 hx with rfl | hx
          · exact hc
          · exact h2 x hx
        · exact ⟨by simp, by simpa using hc, by simp⟩
      · rintro ⟨h1, h2, h3⟩
        cases a with
        | nil => exact absurd rfl h1
        | cons x xs =>
          simp only [List.cons_append, List.cons.injEq] at h3
          obtain ⟨rfl, rfl⟩ := h3
          cases xs with
          | nil => right; simp
          | cons y ys =>
            left
            refine ⟨y :: ys, r, (ih (y :: ys)).2 ⟨by simp, ?_, rfl⟩, rfl, rfl⟩
            intro z hz
            exact h2 z (List.mem_cons_of_mem _ hz)
    · rename_i hc
      simp only [List.not_mem_nil, false_iff]
      rintro ⟨h1, h2, h3⟩
      cases a with
      | nil => exact h1 rfl
      | cons x xs =>
        simp only [List.cons_append, List.cons.injEq] at h3
        obtain ⟨rfl, -⟩ := h3
        exact hc (h2 _ (List.mem_cons_self _ _))

theorem mem_run_beginText (g pos : Nat) (inp : List Char) (u : Thread) :
    u ∈ Regex.beginText.run g pos inp ↔ pos = 0 ∧ u = ⟨[], inp, []⟩ := by
  simp only [Regex.run]
  split <;> simp_all

theorem mem_run_endText (g pos : Nat) (inp : List Char) (u : Thread) :
    u ∈ Regex.endText.run g pos inp ↔ inp = [] ∧ u = ⟨[], [], []⟩ := by
  cases inp <;> simp [Regex.run]

theorem mem_run_lit (c : Char) (g pos : Nat) (inp : List Char) (u : Thread) :
    u ∈ (Regex.lit c).run g pos inp ↔ ∃ r, inp = c :: r ∧ u = ⟨[c], r, []⟩ := by
  cases inp with
  | nil => simp [Regex.run]
  | cons x xs =>
    simp only [Regex.run]
    split
    · rename_i h
      subst h
      simp
    · rename_i h
      simp only [List.not_mem_nil, List.cons.injEq, false_iff, not_exists, not_and]
      rintro r ⟨rfl, -⟩
      exact absurd rfl h

theorem mem_run_plus (cls : Char → Bool) (g pos : Nat) (inp : List Char) (u : Thread) :
    u ∈ (Regex.plus cls).run g pos inp ↔
      ∃ a r, a ≠ [] ∧ (∀ c ∈ a, cls c = true) ∧ inp = a ++ r ∧ u = ⟨a, r, []⟩ := by
  simp only [Regex.run, List.mem_map, Prod.exists, mem_plusRuns]
  constructor
  · rintro ⟨a, r, ⟨h1, h2, h3⟩, rfl⟩
    exact ⟨a, r, h1, h2, h3, rfl⟩
  · rintro ⟨a, r, h1, h2, h3, rfl⟩
    exact ⟨a, r, ⟨h1, h2, h3⟩, rfl⟩

theorem mem_run_cat (a b : Regex) (g pos : Nat) (inp : List Char) (u : Thread) :
    u ∈ (Regex.cat a b).run g pos inp ↔
      ∃ t ∈ a.run g pos inp, ∃ v ∈ b.run (g + a.numCap) (pos + t.consumed.length) t.rest,
        u = ⟨t.consumed ++ v.consumed, v.rest, t.caps ++ v.caps⟩ := by
  simp only [Regex.run, List.mem_flatMap, List.mem_map]
  constructor
  · rintro ⟨t, ht, v, hv, rfl⟩
    exact ⟨t, ht, v, hv, rfl⟩
  · rintro ⟨t, ht, v, hv, rfl⟩
    exact ⟨t, ht, v, hv, rfl⟩

theorem mem_run_quest (a : Regex) (g pos : Nat) (inp : List Char) (u : Thread) :
    u ∈ (Regex.quest a).run g pos inp ↔ u ∈ a.run g pos inp ∨ u = ⟨[], inp, []⟩ := by
  simp only [Regex.run, List.mem_append, List.mem_singleton]

theorem mem_run_capture (n : String) (a : Regex) (g pos : Nat) (inp : List Char) (u : Thread) :
    u ∈ (Regex.capture n a).run g pos inp ↔
      ∃ t ∈ a.run (g + 1) pos inp, u = ⟨t.consumed, t.rest, (g, t.consumed) :: t.caps⟩ := by
  simp only [Regex.run, List.mem_map]
  constructor
  · rintro ⟨t, ht, rfl⟩
    exact ⟨t, ht, rfl⟩
  · rintro ⟨t, ht, rfl⟩
    exact ⟨t, ht, rfl⟩

theorem mem_run_tagRe (g pos : Nat) (inp : List Char) (u : Thread) :
    u ∈ tagRe.run g pos inp ↔
      u = ⟨[], inp, []⟩ ∨
      ∃ tg r, tg ≠ [] ∧ (∀ c ∈ tg, tagCls c = true) ∧ inp = tg ++ '.' :: r ∧
        u = ⟨tg ++ ['.'], r, [(g, tg ++ ['.']), (g + 1, tg)]⟩ := by
  simp only [tagRe, mem_run_quest, mem_run_capture, mem_run_cat, mem_run_plus, mem_run_lit]
  constructor
  · rintro (⟨t, ⟨t1, ⟨t2, ⟨a, r, h1, h2, rfl, rfl⟩, rfl⟩, v, ⟨r1, hr, rfl⟩, rfl⟩, rfl⟩ | rfl)
    · right
      simp only at hr
      subst hr
      exact ⟨a, r1, h1, h2, rfl, rfl⟩
    · left; rfl
  · rintro (rfl | ⟨tg, r, h1, h2, rfl, rfl⟩)
    · right; rfl
    · left
      exact ⟨_, ⟨_, ⟨_, ⟨tg, '.' :: r, h1, h2, rfl, rfl⟩, rfl⟩, _, ⟨r, rfl, rfl⟩, rfl⟩, rfl⟩

theorem mem_run_serviceNameRe (g pos : Nat) (inp : List Char) (u : Thread) :
    u ∈ serviceNameRe.run g pos inp ↔
      ∃ n r, n ≠ [] ∧ (∀ c ∈ n, nameCls c = true) ∧ inp = n ++ r ∧ u = ⟨n, r, [(g, n)]⟩ := by
  simp only [serviceNameRe, mem_run_capture, mem_run_plus]
  constructor
  · rintro ⟨t, ⟨a, r, h1, h2, rfl, rfl⟩, rfl⟩
    exact ⟨a, r, h1, h2, rfl, rfl⟩
  · rintro ⟨n, r, h1, h2, rfl, rfl⟩
    exact ⟨_, ⟨n, r, h1, h2, rfl, rfl⟩, rfl⟩

theorem mem_run_regionRe (g pos : Nat) (inp : List Char) (u : Thread) :
    u ∈ regionRe.run g pos inp ↔
      u = ⟨[], inp, []⟩ ∨
      ∃ rg r, rg ≠ [] ∧ (∀ c ∈ rg, regionCls c = true) ∧ inp = '@' :: (rg ++ r) ∧
        u = ⟨'@' :: rg, r, [(g, '@' :: rg), (g + 1, rg)]⟩ := by
  simp only [regionRe, mem_run_quest, mem_run_capture, mem_run_cat, mem_run_plus, mem_run_lit]
  constructor
  · rintro (⟨t, ⟨t1, ⟨r1, rfl, rfl⟩, v, ⟨t2, ⟨a, r, h1, h2, hr, rfl⟩, rfl⟩, rfl⟩, rfl⟩ | rfl)
    · right
      simp only at hr
      subst hr
      exact ⟨a, r, h1, h2, rfl, rfl⟩
    · left; rfl
  · rintro (rfl | ⟨rg, r, h1, h2, rfl, rfl⟩)
    · right; rfl
    · left
      exact ⟨_, ⟨_, ⟨rg ++ r, rfl, rfl⟩, _, ⟨_, ⟨rg, r, h1, h2, rfl, rfl⟩, rfl⟩, rfl⟩, rfl⟩

theorem numCap_tagRe : tagRe.numCap = 2 := rfl

theorem numCap_serviceNameRe : serviceNameRe.numCap = 1 := rfl

theorem numCap_regionRe : regionRe.numCap = 2 := rfl

theorem run_query_sound (inp : List Char) (u : Thread)
    (h : u ∈ NomadServiceQueryRe.run 1 0 inp) :
    u.consumed = inp ∧ IsParse inp (u.group 2) (u.group 3) (u.group 5) := by
  simp only [NomadServiceQueryRe, mem_run_cat, mem_run_beginText, mem_run_tagRe,
    mem_run_serviceNameRe, mem_run_regionRe, mem_run_endText, numCap_tagRe,
    numCap_serviceNameRe, numCap_regionRe, Regex.numCap] at h
  obtain ⟨t0, ⟨-, rfl⟩, v0, ⟨t1, ht1, v1, ⟨t2, ⟨n, r, hn, hncls, hinp, rfl⟩, v2,
    ⟨t3, ht3, v3, ⟨hr, rfl⟩, rfl⟩, rfl⟩, rfl⟩, rfl⟩ := h
  simp only at ht1 ht3
  rcases ht1 with rfl | ⟨tg, r1, htg, htgcls, rfl, rfl⟩ <;>
    rcases ht3 with rfl | ⟨rg, r2, hrg, hrgcls, hrr, rfl⟩
  · simp only at hinp hr
    subst hr
    subst hinp
    refine ⟨by simp, ?_⟩
    simp [IsParse, Thread.group, List.lookup, optTag, optRegion, hn]
    exact hncls
  · simp only at hinp hr hrr
    subst hr
    subst hrr
    subst hinp
    refine ⟨by simp, ?_⟩
    simp [IsParse, Thread.group, List.lookup, optTag, optRegion, hn, hrg]
    exact ⟨hncls, hrgcls⟩
  · simp only at hinp hr
    subst hr
    subst hinp
    refine ⟨by simp, ?_⟩
    simp [IsParse, Thread.group, List.lookup, optTag, optRegion, hn, htg]
    exact ⟨htgcls, hncls⟩
  · simp only at hinp hr hrr
    subst hr
    subst hrr
    subst hinp
    refine ⟨by simp, ?_⟩
    simp [IsParse, Thread.group, List.lookup, optTag, optRegion, hn, hrg, htg]
    exact ⟨htgcls, hncls, hrgcls⟩

theorem run_query_complete (inp tg n rg : List Char) (h : IsParse inp tg n rg) :
    ∃ u, u ∈ NomadServiceQueryRe.run 1 0 inp := by
  obtain ⟨htg, hn, hncls, hrg, rfl⟩ := h
  simp only [NomadServiceQueryRe, mem_run_cat, mem_run_beginText, mem_run_tagRe,
    mem_run_serviceNameRe, mem_run_regionRe, mem_run_endText, numCap_tagRe,
    numCap_serviceNameRe, numCap_regionRe, Regex.numCap]
  by_cases h1 : tg = [] <;> by_cases h2 : rg = []
  · subst h1 h2
    exact ⟨_, _, ⟨trivial, rfl⟩, _, ⟨_, Or.inl rfl, _, ⟨_, ⟨n, [], hn, hncls, by simp [optTag, optRegion], rfl⟩,
      _, ⟨_, Or.inl rfl, _, ⟨rfl, rfl⟩, rfl⟩, rfl⟩, rfl⟩, rfl⟩
  · subst h1
    exact ⟨_, _, ⟨trivial, rfl⟩, _, ⟨_, Or.inl rfl, _, ⟨_, ⟨n, '@' :: rg, hn, hncls,
      by simp [optTag, optRegion, h2], rfl⟩,
      _, ⟨_, Or.inr ⟨rg, [], h2, hrg, by simp, rfl⟩, _, ⟨rfl, rfl⟩, rfl⟩, rfl⟩, rfl⟩, rfl⟩
  · subst h2
    exact ⟨_, _, ⟨trivial, rfl⟩, _, ⟨_, Or.inr ⟨tg, n, h1, htg, by simp [optTag, optRegion, h1], rfl⟩, _,
      ⟨_, ⟨n, [], hn, hncls, by simp, rfl⟩,
      _, ⟨_, Or.inl rfl, _, ⟨rfl, rfl⟩, rfl⟩, rfl⟩, rfl⟩, rfl⟩
  · exact ⟨_, _, ⟨trivial, rfl⟩, _, ⟨_, Or.inr ⟨tg, n ++ '@' :: rg, h1, htg,
        by simp [optTag, optRegion, h1, h2], rfl⟩, _,
      ⟨_, ⟨n, '@' :: rg, hn, hncls, rfl, rfl⟩,
      _, ⟨_, Or.inr ⟨rg, [], h2, hrg, by simp, rfl⟩, _, ⟨rfl, rfl⟩, rfl⟩, rfl⟩, rfl⟩, rfl⟩

theorem run_beginText_cat_pos (x : Regex) (g pos : Nat) (inp : List Char) :
    (Regex.cat .beginText x).run g (pos + 1) inp = [] := by
  simp [Regex.run]

theorem searchFrom_anchored_pos (x : Regex) (pos : Nat) (inp : List Char) :
    (Regex.cat .beginText x).searchFrom (pos + 1) inp = none := by
  induction inp generalizing pos with
  | nil => simp [Regex.searchFrom, run_beginText_cat_pos]
  | cons c cs ih => simp [Regex.searchFrom, run_beginText_cat_pos, ih]

theorem searchFrom_anchored (x : Regex) (inp : List Char) :
    (Regex.cat .beginText x).searchFrom 0 inp = ((Regex.cat .beginText x).run 1 0 inp).head? := by
  cases inp with
  | nil => simp [Regex.searchFrom]
  | cons c cs =>
    simp only [Regex.searchFrom, Nat.zero_add]
    cases h : ((Regex.cat .beginText x).run 1 0 (c :: cs)).head? with
    | none => simp [searchFrom_anchored_pos]
    | some t => rfl

theorem split_first (x : Char) (a a' S S' : List Char) (ha : x ∉ a) (ha' : x ∉ a')
    (hS : S = [] ∨ ∃ r, S = x :: r) (hS' : S' = [] ∨ ∃ r, S' = x :: r)
    (h : a ++ S = a' ++ S') : a = a' ∧ S = S' := by
  induction a generalizing a' with
  | nil =>
    cases a' with
    | nil => exact ⟨rfl, by simpa using h⟩
    | cons y ys =>
      exfalso
      rcases hS with rfl | ⟨r, rfl⟩
      · simp at h
      · simp only [List.nil_append, List.cons_append, List.cons.injEq] at h
        exact ha' (by simp [h.1])
  | cons z zs ih =>
    cases a' with
    | nil =>
      exfalso
      rcases hS' with rfl | ⟨r, rfl⟩
      · simp at h
      · simp only [List.nil_append, List.cons_append, List.cons.injEq] at h
        exact ha (by simp [h.1])
    | cons y ys =>
      simp only [List.cons_append, List.cons.injEq] at h
      obtain ⟨rfl, h⟩ := h
      have := ih ys (fun hx => ha (List.mem_cons_of_mem _ hx))
        (fun hx => ha' (List.mem_cons_of_mem _ hx)) h
      exact ⟨by rw [this.1], this.2⟩

theorem optRegion_inj (rg rg' : List Char) (h : optRegion rg = optRegion rg') : rg = rg' := by
  unfold optRegion at h
  by_cases h1 : rg = [] <;> by_cases h2 : rg' = [] <;> simp_all

theorem optTag_inj (tg tg' : List Char) (h : optTag tg = optTag tg') : tg = tg' := by
  unfold optTag at h
  by_cases h1 : tg = [] <;> by_cases h2 : tg' = [] <;> simp_all

theorem optRegion_shape (rg : List Char) : optRegion rg = [] ∨ ∃ r, optRegion rg = '@' :: r := by
  unfold optRegion
  by_cases h : rg = []
  · left; simp [h]
  · right; exact ⟨rg, by simp [h]⟩

theorem optTag_reverse_shape (tg : List Char) :
    (optTag tg).reverse = [] ∨ ∃ r, (optTag tg).reverse = '.' :: r := by
  unfold optTag
  by_cases h : tg = []
  · left; simp [h]
  · right; exact ⟨tg.reverse, by simp [h]⟩

theorem at_not_mem_tagPart (tg n : List Char) (htg : ∀ c ∈ tg, tagCls c = true)
    (hn : ∀ c ∈ n, nameCls c = true) : '@' ∉ optTag tg ++ n := by
  intro h
  rcases List.mem_append.1 h with h | h
  · unfold optTag at h
    split at h
    · simp at h
    · rcases List.mem_append.1 h with h | h
      · exact absurd (htg _ h) (by decide)
      · simp at h
  · exact absurd (hn _ h) (by decide)

theorem dot_not_mem_name (n : List Char) (hn : ∀ c ∈ n, nameCls c = true) : '.' ∉ n :=
  fun h => absurd (hn _ h) (by decide)

theorem IsParse_unique (inp tg n rg tg' n' rg' : List Char) (h : IsParse inp tg n rg)
    (h' : IsParse inp tg' n' rg') : tg = tg' ∧ n = n' ∧ rg = rg' := by
  obtain ⟨htg, -, hn, -, rfl⟩ := h
  obtain ⟨htg', -, hn', -, heq⟩ := h'
  obtain ⟨h1, h2⟩ := split_first '@' _ _ _ _ (at_not_mem_tagPart tg n htg hn)
    (at_not_mem_tagPart tg' n' htg' hn') (optRegion_shape rg) (optRegion_shape rg') heq
  have h3 : n.reverse ++ (optTag tg).reverse = n'.reverse ++ (optTag tg').reverse := by
    rw [← List.reverse_append, ← List.reverse_append, h1]
  obtain ⟨h4, h5⟩ := split_first '.' _ _ _ _
    (fun hx => dot_not_mem_name n hn (List.mem_reverse.1 hx))
    (fun hx => dot_not_mem_name n' hn' (List.mem_reverse.1 hx))
    (optTag_reverse_shape tg) (optTag_reverse_shape tg') h3
  exact ⟨optTag_inj _ _ (List.reverse_injective h5), List.reverse_injective h4,
    optRegion_inj _ _ h2⟩

theorem regexpMatch_query_fold (u : Thread) :
    (List.zip NomadServiceQueryRe.SubexpNames (NomadServiceQueryRe.submatch u)).foldl
      (fun acc p => if p.1 != "" then mapSet acc p.1 p.2 else acc) [] =
    [("region", String.mk (u.group 5)), ("name", String.mk (u.group 3)),
      ("tag", String.mk (u.group 2))] := by
  rfl

theorem NewNomadServiceQuery_eq (s : String) :
    NewNomadServiceQuery s =
      match (NomadServiceQueryRe.run 1 0 s.data).head? with
      | none => .error (.invalidFormat "nomad.service" s)
      | some u => .ok ⟨.opened, String.mk (u.group 5), String.mk (u.group 3),
          String.mk (u.group 2)⟩ := by
  have hre : NomadServiceQueryRe =
      Regex.cat .beginText (.cat tagRe (.cat serviceNameRe (.cat regionRe .endText))) := rfl
  have hs : NomadServiceQueryRe.searchFrom 0 s.data =
      (NomadServiceQueryRe.run 1 0 s.data).head? := by
    rw [hre]; exact searchFrom_anchored _ _
  unfold NewNomadServiceQuery Regex.MatchString regexpMatch Regex.FindStringSubmatch
  rw [hs]
  cases (NomadServiceQueryRe.run 1 0 s.data).head? with
  | none => rfl
  | some u =>
    simp only [Option.isSome_some, Bool.not_true, Bool.false_eq_true, if_false, Option.map_some',
      regexpMatch_query_fold]
    rfl

theorem NewNomadServiceQuery_ok (s : String) (q : NomadServiceQuery)
    (h : NewNomadServiceQuery s = .ok q) :
    q.stopCh = .opened ∧ IsParse s.data q.tag.data q.name.data q.region.data := by
  rw [NewNomadServiceQuery_eq] at h
  cases hu : (NomadServiceQueryRe.run 1 0 s.data).head? with
  | none => rw [hu] at h; cases h
  | some u =>
    rw [hu] at h
    simp only [Except.ok.injEq] at h
    subst h
    exact ⟨rfl, (run_query_sound _ _ (List.mem_of_mem_head? hu)).2⟩

theorem NewNomadServiceQuery_of_parse (s : String) (tg n rg : List Char)
    (h : IsParse s.data tg n rg) :
    NewNomadServiceQuery s = .ok ⟨.opened, String.mk rg, String.mk n, String.mk tg⟩ := by
  rw [NewNomadServiceQuery_eq]
  obtain ⟨v, hv⟩ := run_query_complete _ _ _ _ h
  cases hu : (NomadServiceQueryRe.run 1 0 s.data).head? with
  | none =>
    rw [List.head?_eq_none_iff] at hu
    rw [hu] at hv
    cases hv
  | some u =>
    obtain ⟨h1, h2, h3⟩ := IsParse_unique _ _ _ _ _ _ _
      (run_query_sound _ _ (List.mem_of_mem_head? hu)).2 h
    simp only [h1, h2, h3]

theorem NewNomadServiceQuery_error (s : String) (e : DepError)
    (h : NewNomadServiceQuery s = .error e) :
    e = .invalidFormat "nomad.service" s ∧ ∀ tg n rg, ¬ IsParse s.data tg n rg := by
  constructor
  · rw [NewNomadServiceQuery_eq] at h
    cases hu : (NomadServiceQueryRe.run 1 0 s.data).head? with
    | none => rw [hu] at h; injection h with h; exact h.symm
    | some u => rw [hu] at h; cases h
  · intro tg n rg hp
    rw [NewNomadServiceQuery_of_parse s tg n rg hp] at h
    cases h

theorem String_ne_empty_iff (s : String) : s ≠ "" ↔ s.data ≠ [] := by
  constructor
  · intro h hd
    exact h (String.ext hd)
  · intro h hs
    exact h (by rw [hs])

theorem NomadServiceQuery_String_data (q : NomadServiceQuery) :
    q.String.data =
      "nomad.service(".data ++ (optTag q.tag.data ++ q.name.data ++ optRegion q.region.data) ++
        ")".data := by
  unfold NomadServiceQuery.String optTag optRegion
  by_cases h1 : q.tag = "" <;> by_cases h2 : q.region = "" <;>
    simp [h1, h2, String.data_append, (String_ne_empty_iff _).1]

theorem NewNomadServiceQuery_String (s : String) (q : NomadServiceQuery)
    (h : NewNomadServiceQuery s = .ok q) : q.String = "nomad.service(" ++ s ++ ")" := by
  apply String.ext
  rw [NomadServiceQuery_String_data, String.data_append, String.data_append]
  obtain ⟨-, -, -, -, -, hs⟩ := NewNomadServiceQuery_ok s q h
  rw [← hs]

theorem NewNomadServiceQuery_of_no_parse (s : String)
    (h : ∀ tg n rg, ¬ IsParse s.data tg n rg) :
    NewNomadServiceQuery s = .error (.invalidFormat "nomad.service" s) := by
  cases hq : NewNomadServiceQuery s with
  | error e => rw [(NewNomadServiceQuery_error s e hq).1]
  | ok q => exact absurd (NewNomadServiceQuery_ok s q hq).2 (h _ _ _)

theorem no_parse_of_empty_name (inp A S tg n rg : List Char) (hA : '@' ∉ A)
    (hS : S = [] ∨ ∃ r, S = '@' :: r) (hend : A = [] ∨ ∃ a, A = a ++ ['.'])
    (hinp : inp = A ++ S) : ¬ IsParse inp tg n rg := by
  rintro ⟨htg, hn, hncls, -, heq⟩
  rw [hinp] at heq
  obtain ⟨h1, -⟩ := split_first '@' _ _ _ _ hA (at_not_mem_tagPart tg n htg hncls) hS
    (optRegion_shape rg) heq
  rcases hend with rfl | ⟨a, rfl⟩
  · have := List.append_eq_nil.1 h1.symm
    exact hn this.2
  · have h2 := congrArg List.reverse h1
    simp only [List.reverse_append, List.reverse_cons, List.reverse_nil, List.nil_append,
      List.singleton_append] at h2
    cases hr : n.reverse with
    | nil => exact hn (List.reverse_eq_nil_iff.1 hr)
    | cons c cs =>
      rw [hr] at h2
      simp only [List.cons_append, List.cons.injEq] at h2
      have hc : c ∈ n := List.mem_reverse.1 (by rw [hr]; exact List.mem_cons_self _ _)
      rw [← h2.1] at hc
      exact dot_not_mem_name n hncls hc

theorem at_not_mem_tag (t : List Char) (ht : ∀ c ∈ t, tagCls c = true) : '@' ∉ t :=
  fun h => absurd (ht _ h) (by decide)

/-- The model on the table of `TestNewNomadServiceQuery`. -/
theorem NewNomadServiceQuery_test_table :
    NewNomadServiceQuery "" = .error (.invalidFormat "nomad.service" "") ∧
    NewNomadServiceQuery "@us-east-1" = .error (.invalidFormat "nomad.service" "@us-east-1") ∧
    NewNomadServiceQuery "tag." = .error (.invalidFormat "nomad.service" "tag.") ∧
    NewNomadServiceQuery "name" = .ok ⟨.opened, "", "name", ""⟩ ∧
    NewNomadServiceQuery "name@us-east-1" = .ok ⟨.opened, "us-east-1", "name", ""⟩ ∧
    NewNomadServiceQuery "tag.name" = .ok ⟨.opened, "", "name", "tag"⟩ ∧
    NewNomadServiceQuery "tag.name@us-east-1" = .ok ⟨.opened, "us-east-1", "name", "tag"⟩ ∧
    NewNomadServiceQuery "tag:value.name" = .ok ⟨.opened, "", "name", "tag:value"⟩ := by
  decide

/-- The model on the table of `TestNomadServiceQuery_String`. -/
theorem NomadServiceQuery_String_test_table :
    (NewNomadServiceQuery "name").map (fun d => d.String) = .ok "nomad.service(name)" ∧
    (NewNomadServiceQuery "name@us-east-1").map (fun d => d.String) =
      .ok "nomad.service(name@us-east-1)" ∧
    (NewNomadServiceQuery "tag.name").map (fun d => d.String) = .ok "nomad.service(tag.name)" ∧
    (NewNomadServiceQuery "tag.name@us-east-1").map (fun d => d.String) =
      .ok "nomad.service(tag.name@us-east-1)" := by
  decide

/-- C1: for every string that `NewNomadServiceQuery` accepts, `String()` of the
returned query is `"nomad.service(" ++ s ++ ")"`: re-serializing a parsed query
gives back exactly the text that was parsed. -/
theorem NomadServiceQuery_round_trip (s : String) (q : NomadServiceQuery)
    (h : NewNomadServiceQuery s = .ok q) : q.String = "nomad.service(" ++ s ++ ")" :=
  NewNomadServiceQuery_String s q h

/-- Witness of C1 on the text `tag.name@us-east-1`. -/
theorem NomadServiceQuery_round_trip_witness :
    NewNomadServiceQuery "tag.name@us-east-1" = .ok ⟨.opened, "us-east-1", "name", "tag"⟩ ∧
    (⟨.opened, "us-east-1", "name", "tag"⟩ : NomadServiceQuery).String =
      "nomad.service(" ++ "tag.name@us-east-1" ++ ")" :=
  ⟨by decide, NomadServiceQuery_round_trip _ _ (by decide)⟩

/-- C2: for every non-empty name of name characters, every optional non-empty
tag of tag characters and every optional non-empty region of region characters,
`NewNomadServiceQuery` accepts the text `[t "."] n ["@" r]` and returns the
query whose tag, name and region are exactly `t`, `n` and `r`, the empty
string standing for an omitted component. -/
theorem NewNomadServiceQuery_decomposition (t : Option String) (n : String) (r : Option String)
    (hn : n ≠ "" ∧ ∀ c ∈ n.data, nameCls c = true)
    (ht : ∀ t0, t = some t0 → t0 ≠ "" ∧ ∀ c ∈ t0.data, tagCls c = true)
    (hr : ∀ r0, r = some r0 → r0 ≠ "" ∧ ∀ c ∈ r0.data, regionCls c = true) :
    NewNomadServiceQuery (queryText t n r) =
      .ok { stopCh := .opened, region := r.getD "", name := n, tag := t.getD "" } := by
  have hp : IsParse (queryText t n r).data (t.getD "").data n.data (r.getD "").data := by
    refine ⟨?_, (String_ne_empty_iff n).1 hn.1, hn.2, ?_, ?_⟩
    · cases t with
      | none => intro c hc; simp at hc
      | some t0 => exact (ht t0 rfl).2
    · cases r with
      | none => intro c hc; simp at hc
      | some r0 => exact (hr r0 rfl).2
    · cases t with
      | none =>
        cases r with
        | none => simp [queryText, optTag, optRegion, String.data_append]
        | some r0 =>
          have := (String_ne_empty_iff r0).1 (hr r0 rfl).1
          simp [queryText, optTag, optRegion, String.data_append, this]
      | some t0 =>
        have h0 := (String_ne_empty_iff t0).1 (ht t0 rfl).1
        cases r with
        | none => simp [queryText, optTag, optRegion, String.data_append, h0]
        | some r0 =>
          have := (String_ne_empty_iff r0).1 (hr r0 rfl).1
          simp [queryText, optTag, optRegion, String.data_append, this, h0]
  exact NewNomadServiceQuery_of_parse _ _ _ _ hp

/-- Witness of C2: the tag `tag:value`, which contains a colon, is kept whole. -/
theorem NewNomadServiceQuery_decomposition_witness :
    NewNomadServiceQuery "tag:value.name" =
      .ok { stopCh := .opened, region := "", name := "name", tag := "tag:value" } :=
  NewNomadServiceQuery_decomposition (some "tag:value") "name" none (by decide)
    (fun t0 h => by cases h; decide) (fun r0 h => by cases h)

/-- C3: an input whose name component is empty (the empty string, a region
alone `@r`, a tag alone `t.`, or a tag and a region without a name) is refused
with the invalid-format error and no query; hence every query that
`NewNomadServiceQuery` returns has a non-empty name. -/
theorem NewNomadServiceQuery_missing_name (t r : String)
    (ht : ∀ c ∈ t.data, tagCls c = true) :
    (NewNomadServiceQuery "" = .error (.invalidFormat "nomad.service" "") ∧
      NewNomadServiceQuery ("@" ++ r) = .error (.invalidFormat "nomad.service" ("@" ++ r)) ∧
      NewNomadServiceQuery (t ++ ".") = .error (.invalidFormat "nomad.service" (t ++ ".")) ∧
      NewNomadServiceQuery (t ++ "." ++ "@" ++ r) =
        .error (.invalidFormat "nomad.service" (t ++ "." ++ "@" ++ r))) ∧
    ∀ s q, NewNomadServiceQuery s = .ok q → q.name ≠ "" := by
  refine ⟨⟨by decide, ?_, ?_, ?_⟩, ?_⟩
  · refine NewNomadServiceQuery_of_no_parse _ (fun tg n rg => ?_)
    exact no_parse_of_empty_name _ [] ('@' :: r.data) tg n rg (by simp) (Or.inr ⟨_, rfl⟩)
      (Or.inl rfl) (by simp [String.data_append])
  · refine NewNomadServiceQuery_of_no_parse _ (fun tg n rg => ?_)
    have hA : '@' ∉ t.data ++ ['.'] := by
      intro h
      rcases List.mem_append.1 h with h | h
      · exact at_not_mem_tag _ ht h
      · simp at h
    exact no_parse_of_empty_name _ (t.data ++ ['.']) [] tg n rg hA (Or.inl rfl)
      (Or.inr ⟨_, rfl⟩) (by simp [String.data_append])
  · refine NewNomadServiceQuery_of_no_parse _ (fun tg n rg => ?_)
    have hA : '@' ∉ t.data ++ ['.'] := by
      intro h
      rcases List.mem_append.1 h with h | h
      · exact at_not_mem_tag _ ht h
      · simp at h
    exact no_parse_of_empty_name _ (t.data ++ ['.']) ('@' :: r.data) tg n rg hA
      (Or.inr ⟨_, rfl⟩) (Or.inr ⟨_, rfl⟩) (by simp [String.data_append])
  · intro s q h
    exact (String_ne_empty_iff _).2 (NewNomadServiceQuery_ok s q h).2.2.1

/-- Witness of C3 on the tag `tag` and the region `us-east-1`, and on the
accepted text `name`. -/
theorem NewNomadServiceQuery_missing_name_witness :
    (∀ c ∈ "tag".data, tagCls c = true) ∧
    NewNomadServiceQuery "" = .error (.invalidFormat "nomad.service" "") ∧
    NewNomadServiceQuery "@us-east-1" = .error (.invalidFormat "nomad.service" "@us-east-1") ∧
    NewNomadServiceQuery "tag." = .error (.invalidFormat "nomad.service" "tag.") ∧
    NewNomadServiceQuery "tag.@us-east-1" =
      .error (.invalidFormat "nomad.service" "tag.@us-east-1") ∧
    NewNomadServiceQuery "name" = .ok ⟨.opened, "", "name", ""⟩ ∧
    (⟨.opened, "", "name", ""⟩ : NomadServiceQuery).name ≠ "" :=
  have h := NewNomadServiceQuery_missing_name "tag" "us-east-1" (by decide)
  ⟨by decide, h.1.1, h.1.2.1, h.1.2.2.1, h.1.2.2.2, by decide,
    h.2 "name" ⟨.opened, "", "name", ""⟩ (by decide)⟩

/-- C4: for every query with fields (tag, name, region), `String()` is
`nomad.service(` followed by the tag and a dot when the tag is non-empty, the
name, `@` and the region when the region is non-empty, and `)`. -/
theorem NomadServiceQuery_String_form (ch : Chan) (tag name region : String) :
    (⟨ch, region, name, tag⟩ : NomadServiceQuery).String =
      "nomad.service(" ++ (if tag ≠ "" then tag ++ "." else "") ++ name ++
        (if region ≠ "" then "@" ++ region else "") ++ ")" := by
  unfold NomadServiceQuery.String
  by_cases h1 : tag = "" <;> by_cases h2 : region = "" <;>
    simp [h1, h2, String.append_assoc]

/-- C5: two accepted inputs whose queries have the same `String()` (their
`Type()` being `TypeNomad` and `CanShare()` true) give queries with the same
tag, name and region. -/
theorem NomadServiceQuery_fingerprint (s1 s2 : String) (q1 q2 : NomadServiceQuery)
    (h1 : NewNomadServiceQuery s1 = .ok q1) (h2 : NewNomadServiceQuery s2 = .ok q2)
    (h : q1.String = q2.String) :
    (q1.Type = .TypeNomad ∧ q2.Type = .TypeNomad ∧ q1.CanShare = true ∧ q2.CanShare = true) ∧
    q1.tag = q2.tag ∧ q1.name = q2.name ∧ q1.region = q2.region := by
  refine ⟨⟨rfl, rfl, rfl, rfl⟩, ?_⟩
  rw [NewNomadServiceQuery_String s1 q1 h1, NewNomadServiceQuery_String s2 q2 h2] at h
  have hd := congrArg String.data h
  simp only [String.data_append, List.append_cancel_left_eq, List.append_cancel_right_eq] at hd
  have hs : s1 = s2 := String.ext hd
  subst hs
  rw [h1] at h2
  injection h2 with h2
  subst h2
  exact ⟨rfl, rfl, rfl⟩

/-- Witness of C5 on the text `tag.name@us-east-1` parsed twice. -/
theorem NomadServiceQuery_fingerprint_witness :
    NewNomadServiceQuery "tag.name@us-east-1" = .ok ⟨.opened, "us-east-1", "name", "tag"⟩ ∧
    (⟨.opened, "us-east-1", "name", "tag"⟩ : NomadServiceQuery).String =
      "nomad.service(tag.name@us-east-1)" ∧
    (⟨.opened, "us-east-1", "name", "tag"⟩ : NomadServiceQuery).Type = .TypeNomad ∧
    (⟨.opened, "us-east-1", "name", "tag"⟩ : NomadServiceQuery).CanShare = true :=
  have h := NomadServiceQuery_fingerprint "tag.name@us-east-1" "tag.name@us-east-1"
    ⟨.opened, "us-east-1", "name", "tag"⟩ ⟨.opened, "us-east-1", "name", "tag"⟩
    (by decide) (by decide) rfl
  ⟨by decide, by decide, h.1.1, h.1.2.2.1⟩

theorem run_services_sound (inp : List Char) (u : Thread)
    (h : u ∈ NomadServicesQueryRe.run 1 0 inp) :
    (∀ c ∈ u.group 2, regionCls c = true) ∧ inp = optRegion (u.group 2) := by
  simp only [NomadServicesQueryRe, mem_run_cat, mem_run_beginText, mem_run_regionRe,
    mem_run_endText, numCap_regionRe, Regex.numCap] at h
  obtain ⟨t0, ⟨-, rfl⟩, v0, ⟨t1, ht1, v1, ⟨hr, rfl⟩, rfl⟩, rfl⟩ := h
  simp only at ht1
  rcases ht1 with rfl | ⟨rg, r, hrg, hrgcls, rfl, rfl⟩
  · simp only at hr
    subst hr
    simp [Thread.group, List.lookup, optRegion]
  · simp only at hr
    subst hr
    simp [Thread.group, List.lookup, optRegion, hrg]
    exact hrgcls

theorem regexpMatch_services_fold (u : Thread) :
    (List.zip NomadServicesQueryRe.SubexpNames (NomadServicesQueryRe.submatch u)).foldl
      (fun acc p => if p.1 != "" then mapSet acc p.1 p.2 else acc) [] =
    [("region", String.mk (u.group 2))] := by
  rfl

theorem NewNomadServicesQuery_eq (s : String) :
    NewNomadServicesQuery s =
      match (NomadServicesQueryRe.run 1 0 s.data).head? with
      | none => .error (.invalidFormat "nomad.services" s)
      | some u => .ok ⟨.opened, String.mk (u.group 2)⟩ := by
  have hre : NomadServicesQueryRe = Regex.cat .beginText (.cat regionRe .endText) := rfl
  have hs : NomadServicesQueryRe.searchFrom 0 s.data =
      (NomadServicesQueryRe.run 1 0 s.data).head? := by
    rw [hre]; exact searchFrom_anchored _ _
  unfold NewNomadServicesQuery Regex.MatchString regexpMatch Regex.FindStringSubmatch
  rw [hs]
  cases (NomadServicesQueryRe.run 1 0 s.data).head? with
  | none => rfl
  | some u =>
    simp only [Option.isSome_some, Bool.not_true, Bool.false_eq_true, if_false, Option.map_some',
      regexpMatch_services_fold]
    rfl

theorem NewNomadServicesQuery_ok (s : String) (q : NomadServicesQuery)
    (h : NewNomadServicesQuery s = .ok q) :
    q.stopCh = .opened ∧ (∀ c ∈ q.region.data, regionCls c = true) ∧
      s.data = optRegion q.region.data := by
  rw [NewNomadServicesQuery_eq] at h
  cases hu : (NomadServicesQueryRe.run 1 0 s.data).head? with
  | none => rw [hu] at h; cases h
  | some u =>
    rw [hu] at h
    simp only [Except.ok.injEq] at h
    subst h
    exact ⟨rfl, run_services_sound _ _ (List.mem_of_mem_head? hu)⟩

/-- C6, as amended: for every non-empty string accepted by
`NewNomadServicesQuery`, `String()` of the returned query is
`"nomad.services(" ++ s ++ ")"`; for the accepted empty string it is the bare
kind `nomad.services`, without parentheses. -/
theorem NomadServicesQuery_String_form (s : String) (q : NomadServicesQuery)
    (h : NewNomadServicesQuery s = .ok q) :
    (s ≠ "" → q.String = "nomad.services(" ++ s ++ ")") ∧
    (s = "" → q.String = "nomad.services") := by
  obtain ⟨-, -, hs⟩ := NewNomadServicesQuery_ok s q h
  unfold optRegion at hs
  unfold NomadServicesQuery.String
  by_cases hr : q.region = ""
  · have hd : q.region.data = [] := by rw [hr]
    rw [hd] at hs
    simp only [if_true] at hs
    have hs0 : s = "" := String.ext hs
    constructor
    · intro hne; exact absurd hs0 hne
    · intro _; simp [hr]
  · have hd : q.region.data ≠ [] := (String_ne_empty_iff _).1 hr
    simp only [hd, if_false] at hs
    constructor
    · intro _
      simp only [ne_eq, hr, not_false_eq_true, if_true]
      apply String.ext
      simp [String.data_append, hs]
    · intro h0
      rw [h0] at hs
      cases hs

/-- Witness of C6 as amended, on the text `@us-east-1`. -/
theorem NomadServicesQuery_String_form_witness :
    NewNomadServicesQuery "@us-east-1" = .ok ⟨.opened, "us-east-1"⟩ ∧
    (⟨.opened, "us-east-1"⟩ : NomadServicesQuery).String =
      "nomad.services(" ++ "@us-east-1" ++ ")" :=
  ⟨by decide, (NomadServicesQuery_String_form "@us-east-1" ⟨.opened, "us-east-1"⟩
    (by decide)).1 (by decide)⟩

/-- Counterexample to C6 as stated: the empty string is accepted and the
query it gives prints as `nomad.services`, not as `nomad.services()`. -/
theorem NomadServicesQuery_String_empty :
    NewNomadServicesQuery "" = .ok ⟨.opened, ""⟩ ∧
    (⟨.opened, ""⟩ : NomadServicesQuery).String = "nomad.services" ∧
    (⟨.opened, ""⟩ : NomadServicesQuery).String ≠ "nomad.services(" ++ "" ++ ")" := by
  decide

theorem Chan_close_ok (c c' : Chan) (h : c.close = .ok c') : c = .opened ∧ c' = .closed := by
  cases c with
  | nil => cases h
  | opened =>
    simp only [Chan.close, Except.ok.injEq] at h
    exact ⟨rfl, h.symm⟩
  | closed => cases h

theorem NomadServiceQuery_Stop_ok (d d' : NomadServiceQuery) (h : d.Stop = .ok d') :
    d.stopCh = .opened ∧ d' = { d with stopCh := .closed } := by
  unfold NomadServiceQuery.Stop at h
  cases hc : d.stopCh.close with
  | error p => rw [hc] at h; cases h
  | ok ch =>
    rw [hc] at h
    obtain ⟨h1, h2⟩ := Chan_close_ok _ _ hc
    subst h2
    simp only [Except.ok.injEq] at h
    exact ⟨h1, h.symm⟩

theorem NomadServicesQuery_Stop_ok (d d' : NomadServicesQuery) (h : d.Stop = .ok d') :
    d.stopCh = .opened ∧ d' = { d with stopCh := .closed } := by
  unfold NomadServicesQuery.Stop at h
  cases hc : d.stopCh.close with
  | error p => rw [hc] at h; cases h
  | ok ch =>
    rw [hc] at h
    obtain ⟨h1, h2⟩ := Chan_close_ok _ _ hc
    subst h2
    simp only [Except.ok.injEq] at h
    exact ⟨h1, h.symm⟩

theorem Chan_recvReady_of_ne_closed (c : Chan) (h : c ≠ .closed) : c.recvReady = false := by
  cases c with
  | nil => rfl
  | opened => rfl
  | closed => exact absurd rfl h

/-- C7: once `Stop()` has completed on a `NomadServiceQuery` or a
`NomadServicesQuery`, `Fetch` on the stopped query returns `ErrStopped` with a
nil result and nil metadata and issues no request, whatever the client and the
options are; `Fetch` leaves the query as it is, so this holds for every later
call. -/
theorem Fetch_after_Stop (sortTags : ServiceTags → ServiceTags)
    (stable : (NomadServicesSnippet → NomadServicesSnippet → Bool) →
      List NomadServicesSnippet → List NomadServicesSnippet)
    (d d' : NomadServiceQuery) (e e' : NomadServicesQuery)
    (client : ClientSet) (opts : QueryOptions)
    (hd : d.Stop = .ok d') (he : e.Stop = .ok e') :
    d'.Fetch sortTags client opts =
      { requests := [], value := none, rm := none, err := some .stopped } ∧
    e'.Fetch sortTags stable client opts =
      { requests := [], value := none, rm := none, err := some .stopped } := by
  obtain ⟨-, rfl⟩ := NomadServiceQuery_Stop_ok d d' hd
  obtain ⟨-, rfl⟩ := NomadServicesQuery_Stop_ok e e' he
  exact ⟨rfl, rfl⟩

/-- Witness of C7: the queries of `name@us` and `@us`, stopped, fetched from
a client that would answer. -/
theorem Fetch_after_Stop_witness :
    (⟨.opened, "us", "name", ""⟩ : NomadServiceQuery).Stop = .ok ⟨.closed, "us", "name", ""⟩ ∧
    (⟨.opened, "us"⟩ : NomadServicesQuery).Stop = .ok ⟨.closed, "us"⟩ ∧
    ((⟨.closed, "us", "name", ""⟩ : NomadServiceQuery).Fetch id
        (answeringClient [] [] ⟨7, 5⟩) {}).err = some .stopped ∧
    ((⟨.closed, "us"⟩ : NomadServicesQuery).Fetch id (fun _ l => l)
        (answeringClient [] [] ⟨7, 5⟩) {}).requests = [] :=
  ⟨by decide, by decide,
    congrArg FetchResult.err (Fetch_after_Stop id (fun _ l => l) ⟨.opened, "us", "name", ""⟩
      ⟨.closed, "us", "name", ""⟩ ⟨.opened, "us"⟩ ⟨.closed, "us"⟩
      (answeringClient [] [] ⟨7, 5⟩) {} (by decide) (by decide)).1,
    congrArg FetchResult.requests (Fetch_after_Stop id (fun _ l => l)
      ⟨.opened, "us", "name", ""⟩ ⟨.closed, "us", "name", ""⟩ ⟨.opened, "us"⟩ ⟨.closed, "us"⟩
      (answeringClient [] [] ⟨7, 5⟩) {} (by decide) (by decide)).2⟩

/-- C8, as amended: on a query whose stop channel is open, `Stop()` completes
without fault and leaves the query stopped; a further `Stop()` on the stopped
query does not complete, it faults with the panic of closing a closed channel. -/
theorem Stop_once (d : NomadServiceQuery) (e : NomadServicesQuery)
    (hd : d.stopCh = .opened) (he : e.stopCh = .opened) :
    (d.Stop = .ok { d with stopCh := .closed } ∧
      ({ d with stopCh := .closed } : NomadServiceQuery).Stop =
        .error .closeOfClosedChannel) ∧
    (e.Stop = .ok { e with stopCh := .closed } ∧
      ({ e with stopCh := .closed } : NomadServicesQuery).Stop =
        .error .closeOfClosedChannel) := by
  refine ⟨⟨?_, rfl⟩, ⟨?_, rfl⟩⟩
  · simp [NomadServiceQuery.Stop, hd, Chan.close]
  · simp [NomadServicesQuery.Stop, he, Chan.close]

/-- Witness of C8 as amended, on the queries of `name` and `@us`. -/
theorem Stop_once_witness :
    (⟨.opened, "", "name", ""⟩ : NomadServiceQuery).Stop = .ok ⟨.closed, "", "name", ""⟩ ∧
    (⟨.opened, "us"⟩ : NomadServicesQuery).Stop = .ok ⟨.closed, "us"⟩ :=
  ⟨(Stop_once ⟨.opened, "", "name", ""⟩ ⟨.opened, "us"⟩ rfl rfl).1.1,
    (Stop_once ⟨.opened, "", "name", ""⟩ ⟨.opened, "us"⟩ rfl rfl).2.1⟩

/-- Counterexample to C8 as stated: the second `Stop()` on the query of `name`
(and on the query of `@us`) faults instead of completing. -/
theorem Stop_twice_faults :
    (⟨.opened, "", "name", ""⟩ : NomadServiceQuery).Stop = .ok ⟨.closed, "", "name", ""⟩ ∧
    (⟨.closed, "", "name", ""⟩ : NomadServiceQuery).Stop = .error .closeOfClosedChannel ∧
    (⟨.opened, "us"⟩ : NomadServicesQuery).Stop = .ok ⟨.closed, "us"⟩ ∧
    (⟨.closed, "us"⟩ : NomadServicesQuery).Stop = .error .closeOfClosedChannel := by
  decide

/-- C9: for every query that is not stopped and every client whose request
fails with an error, `Fetch` returns a nil result, nil metadata and the error
of `errors.Wrap`: its cause is the client's error and its message is the
query's `String()`, a colon and the client error's message.  The two query
types are stated each for its own request, `Get` for a `NomadServiceQuery` and
`List` for a `NomadServicesQuery`, whatever the other request of the client
does. -/
theorem Fetch_failure_wrapped (sortTags : ServiceTags → ServiceTags)
    (stable : (NomadServicesSnippet → NomadServicesSnippet → Bool) →
      List NomadServicesSnippet → List NomadServicesSnippet)
    (leafText : DepError → String) :
    (∀ (d : NomadServiceQuery) (client : ClientSet) (opts : QueryOptions) (err : DepError),
      d.stopCh ≠ .closed →
      client.get d.name (opts.Merge { Region := d.region }) = .error err →
      d.Fetch sortTags client opts =
        { requests := [.get d.name (opts.Merge { Region := d.region })], value := none,
          rm := none, err := some (.wrap err d.String) } ∧
      (DepError.wrap err d.String).cause = some err ∧
      (DepError.wrap err d.String).message leafText =
        d.String ++ ": " ++ err.message leafText) ∧
    (∀ (e : NomadServicesQuery) (clients : ClientSet) (opts : QueryOptions) (err : DepError),
      e.stopCh ≠ .closed →
      clients.list (opts.Merge { Region := e.region }) = .error err →
      e.Fetch sortTags stable clients opts =
        { requests := [.list (opts.Merge { Region := e.region })], value := none,
          rm := none, err := some (.wrap err e.String) } ∧
      (DepError.wrap err e.String).cause = some err ∧
      (DepError.wrap err e.String).message leafText =
        e.String ++ ": " ++ err.message leafText) := by
  constructor
  · intro d client opts err hd h1
    refine ⟨?_, rfl, rfl⟩
    simp only [NomadServiceQuery.Fetch, Chan_recvReady_of_ne_closed _ hd, h1]
    rfl
  · intro e clients opts err he h2
    refine ⟨?_, rfl, rfl⟩
    simp only [NomadServicesQuery.Fetch, Chan_recvReady_of_ne_closed _ he, h2]
    rfl

/-- Witness of C9: the query of `tag.name@us` against a client whose `Get`
is refused while its `List` answers, and the query of `@us` against a client
whose `List` is refused while its `Get` answers. -/
theorem Fetch_failure_wrapped_witness :
    ((⟨.opened, "us", "name", "tag"⟩ : NomadServiceQuery).Fetch id
        (getFailingClient (.backend "connection refused")) {}).err =
      some (.wrap (.backend "connection refused") "nomad.service(tag.name@us)") ∧
    ((⟨.opened, "us"⟩ : NomadServicesQuery).Fetch id (fun _ l => l)
        (listFailingClient (.backend "connection refused")) {}).err =
      some (.wrap (.backend "connection refused") "nomad.services(@us)") :=
  ⟨congrArg FetchResult.err ((Fetch_failure_wrapped id (fun _ l => l) (fun _ => "")).1
      ⟨.opened, "us", "name", "tag"⟩ (getFailingClient (.backend "connection refused")) {}
      (.backend "connection refused") (by decide) rfl).1,
    congrArg FetchResult.err ((Fetch_failure_wrapped id (fun _ l => l) (fun _ => "")).2
      ⟨.opened, "us"⟩ (listFailingClient (.backend "connection refused")) {}
      (.backend "connection refused") (by decide) rfl).1⟩

/-- C10, the code at the failing input: a successful `Fetch` of the query of
`name`, answered with `LastIndex` 7 and `LastContact` 5, returns metadata with
`LastIndex` 7 and `LastContact` 0, while the same answer to the query of
`@us` returns both 7 and 5. -/
theorem NomadServiceQuery_Fetch_LastContact :
    ((⟨.opened, "", "name", ""⟩ : NomadServiceQuery).Fetch id
        (answeringClient [] [] ⟨7, 5⟩) {}).rm = some { LastIndex := 7, LastContact := 0 } ∧
    ((⟨.opened, "", "name", ""⟩ : NomadServiceQuery).Fetch id
        (answeringClient [] [] ⟨7, 5⟩) {}).err = none ∧
    ((⟨.opened, "us"⟩ : NomadServicesQuery).Fetch id (fun _ l => l)
        (answeringClient [] [] ⟨7, 5⟩) {}).rm = some { LastIndex := 7, LastContact := 5 } := by
  decide

/-! ## The configuration -/

/-- The model on rows of `TestNomadConfig_Merge`. -/
theorem NomadConfig_Merge_test_table :
    NomadConfig.Merge none (some {}) = some {} ∧
    NomadConfig.Merge (some {}) none = some {} ∧
    NomadConfig.Merge none none = none ∧
    NomadConfig.Merge (some { Address := some "same" }) (some { Address := some "different" }) =
      some { Address := some "different" } ∧
    NomadConfig.Merge (some { Address := some "same" }) (some {}) =
      some { Address := some "same" } ∧
    NomadConfig.Merge (some {}) (some { Namespace := some "bar" }) =
      some { Namespace := some "bar" } ∧
    NomadConfig.Merge (some { Token := some "same" }) (some { Token := some "same" }) =
      some { Token := some "same" } := by
  decide

/-- C11: for non-nil configs `n` and `o`, every field of `n.Merge(o)` is the
field of `o` when that is set and the field of `n` otherwise; merging with the
empty config gives `n` back, and so does merging `n` with itself. -/
theorem NomadConfig_Merge_precedence (n o : NomadConfig) :
    (∃ r, NomadConfig.Merge (some n) (some o) = some r ∧
      r.Address = (if o.Address.isSome then o.Address else n.Address) ∧
      r.Namespace = (if o.Namespace.isSome then o.Namespace else n.Namespace) ∧
      r.Token = (if o.Token.isSome then o.Token else n.Token) ∧
      r.AuthUsername = (if o.AuthUsername.isSome then o.AuthUsername else n.AuthUsername) ∧
      r.AuthPassword = (if o.AuthPassword.isSome then o.AuthPassword else n.AuthPassword) ∧
      r.HttpClient = (if o.HttpClient.isSome then o.HttpClient else n.HttpClient)) ∧
    NomadConfig.Merge (some n) (some {}) = some n ∧
    NomadConfig.Merge (some n) (some n) = some n := by
  obtain ⟨a1, a2, a3, a4, a5, a6⟩ := n
  obtain ⟨b1, b2, b3, b4, b5, b6⟩ := o
  refine ⟨⟨_, rfl, ?_⟩, rfl, ?_⟩
  · cases b1 <;> cases b2 <;> cases b3 <;> cases b4 <;> cases b5 <;> cases b6 <;>
      exact ⟨rfl, rfl, rfl, rfl, rfl, rfl⟩
  · cases a1 <;> cases a2 <;> cases a3 <;> cases a4 <;> cases a5 <;> cases a6 <;> rfl

/-- C12: `nil.Merge(nil)` is nil, `nil.Merge(o)` is a config equal to `o`, and
`n.Merge(nil)` is a config equal to `n`. -/
theorem NomadConfig_Merge_nil (n o : NomadConfig) :
    NomadConfig.Merge none none = none ∧
    NomadConfig.Merge none (some o) = some o ∧
    NomadConfig.Merge (some n) none = some n :=
  ⟨rfl, rfl, rfl⟩

/-- C13: the copy of a config has the same value in each of the six fields,
and the copy of nil is nil. -/
theorem NomadConfig_Copy_equal (n : NomadConfig) :
    (∃ r, NomadConfig.Copy (some n) = some r ∧
      r.Address = n.Address ∧ r.Namespace = n.Namespace ∧ r.Token = n.Token ∧
      r.AuthUsername = n.AuthUsername ∧ r.AuthPassword = n.AuthPassword ∧
      r.HttpClient = n.HttpClient ∧ r = n) ∧
    NomadConfig.Copy none = none :=
  ⟨⟨_, rfl, rfl, rfl, rfl, rfl, rfl, rfl, rfl⟩, rfl⟩

theorem stringFromEnv_isSome (getenv : String → String) (l : List String) (d : String) :
    (stringFromEnv getenv l d).isSome = true := by
  unfold stringFromEnv
  cases l.find? (fun s => getenv s != "") <;> rfl

theorem stringFromEnv_unset (getenv : String → String) (v : String) (h : getenv v = "") :
    stringFromEnv getenv [v] "" = some "" := by
  simp [stringFromEnv, List.find?, h]

/-- C14: after `Finalize` on a non-nil config no field is nil, whatever the
environment; on the empty config, with `NOMAD_ADDR`, `NOMAD_NAMESPACE` and
`NOMAD_TOKEN` unset, the five string fields are the empty string and
`HttpClient` is the default client. -/
theorem NomadConfig_Finalize_no_nil (getenv : String → String) (n : NomadConfig) :
    ((n.Finalize getenv).Address.isSome ∧ (n.Finalize getenv).Namespace.isSome ∧
      (n.Finalize getenv).Token.isSome ∧ (n.Finalize getenv).AuthUsername.isSome ∧
      (n.Finalize getenv).AuthPassword.isSome ∧ (n.Finalize getenv).HttpClient.isSome) ∧
    (getenv "NOMAD_ADDR" = "" → getenv "NOMAD_NAMESPACE" = "" → getenv "NOMAD_TOKEN" = "" →
      NomadConfig.Finalize getenv {} =
        { Address := some "", Namespace := some "", Token := some "",
          AuthUsername := some "", AuthPassword := some "",
          HttpClient := some .DefaultClient }) := by
  constructor
  · obtain ⟨a1, a2, a3, a4, a5, a6⟩ := n
    cases a1 <;> cases a2 <;> cases a3 <;> cases a4 <;> cases a5 <;> cases a6 <;>
      simp [NomadConfig.Finalize, stringFromEnv_isSome]
  · intro h1 h2 h3
    simp [NomadConfig.Finalize, stringFromEnv_unset, h1, h2, h3]

/-- Witness of C14: the empty config under the empty environment, the case of
`TestNomadConfig_Finalize`. -/
theorem NomadConfig_Finalize_no_nil_witness :
    NomadConfig.Finalize (fun _ => "") {} =
      { Address := some "", Namespace := some "", Token := some "",
        AuthUsername := some "", AuthPassword := some "",
        HttpClient := some .DefaultClient } :=
  (NomadConfig_Finalize_no_nil (fun _ => "") {}).2 rfl rfl rfl


theorem NomadConfig_Merge_some (n o : NomadConfig) :
    NomadConfig.Merge (some n) (some o) =
      some { Address := o.Address.or n.Address
             Namespace := o.Namespace.or n.Namespace
             Token := o.Token.or n.Token
             AuthUsername := o.AuthUsername.or n.AuthUsername
             AuthPassword := o.AuthPassword.or n.AuthPassword
             HttpClient := o.HttpClient.or n.HttpClient } := by
  obtain ⟨b1, b2, b3, b4, b5, b6⟩ := o
  cases b1 <;> cases b2 <;> cases b3 <;> cases b4 <;> cases b5 <;> cases b6 <;> rfl

/-- C21: `Merge` is associative, `a.Merge(b).Merge(c)` equals
`a.Merge(b.Merge(c))` for all configs, each possibly nil, and nil is an
identity on both sides. -/
theorem NomadConfig_Merge_assoc (a b c : Option NomadConfig) :
    NomadConfig.Merge (NomadConfig.Merge a b) c = NomadConfig.Merge a (NomadConfig.Merge b c) ∧
    NomadConfig.Merge none a = a ∧ NomadConfig.Merge a none = a := by
  have hl : ∀ x : Option NomadConfig, NomadConfig.Merge none x = x := by
    intro x; cases x <;> rfl
  have hr : ∀ x : Option NomadConfig, NomadConfig.Merge x none = x := by
    intro x; cases x <;> rfl
  refine ⟨?_, hl a, hr a⟩
  cases a with
  | none => rw [hl, hl]
  | some a =>
    cases b with
    | none => rw [hr, hl]
    | some b =>
      cases c with
      | none => rw [hr, hr]
      | some c =>
        simp only [NomadConfig_Merge_some, Option.or_assoc]

/-- C22: `Finalize` only fills gaps: each field that is set before the call
has the same value after it, whatever the environment, and `Finalize` applied
twice under the same environment gives what one application gives. -/
theorem NomadConfig_Finalize_fills_gaps (getenv : String → String) (n : NomadConfig) :
    ((∀ v, n.Address = some v → (n.Finalize getenv).Address = some v) ∧
      (∀ v, n.Namespace = some v → (n.Finalize getenv).Namespace = some v) ∧
      (∀ v, n.Token = some v → (n.Finalize getenv).Token = some v) ∧
      (∀ v, n.AuthUsername = some v → (n.Finalize getenv).AuthUsername = some v) ∧
      (∀ v, n.AuthPassword = some v → (n.Finalize getenv).AuthPassword = some v) ∧
      (∀ v, n.HttpClient = some v → (n.Finalize getenv).HttpClient = some v)) ∧
    (n.Finalize getenv).Finalize getenv = n.Finalize getenv := by
  obtain ⟨v1, h1⟩ := Option.isSome_iff_exists.1 (stringFromEnv_isSome getenv ["NOMAD_ADDR"] "")
  obtain ⟨v2, h2⟩ :=
    Option.isSome_iff_exists.1 (stringFromEnv_isSome getenv ["NOMAD_NAMESPACE"] "")
  obtain ⟨v3, h3⟩ := Option.isSome_iff_exists.1 (stringFromEnv_isSome getenv ["NOMAD_TOKEN"] "")
  obtain ⟨a1, a2, a3, a4, a5, a6⟩ := n
  cases a1 <;> cases a2 <;> cases a3 <;> cases a4 <;> cases a5 <;> cases a6 <;>
    simp [NomadConfig.Finalize, h1, h2, h3]

/-- Witness of C22: a config with an explicit address under an environment
that sets `NOMAD_ADDR`. -/
theorem NomadConfig_Finalize_fills_gaps_witness :
    (NomadConfig.Finalize sampleEnv { Address := some "http://explicit:4646" }).Address =
      some "http://explicit:4646" ∧
    (NomadConfig.Finalize sampleEnv {}).Address = some "http://env:4646" ∧
    NomadConfig.Finalize sampleEnv
        (NomadConfig.Finalize sampleEnv { Address := some "http://explicit:4646" }) =
      NomadConfig.Finalize sampleEnv { Address := some "http://explicit:4646" } :=
  have h := NomadConfig_Finalize_fills_gaps sampleEnv { Address := some "http://explicit:4646" }
  ⟨h.1.1 _ rfl, by decide, h.2⟩

/-! ## Results of `Fetch` -/

theorem NomadServiceQuery_Fetch_ok (sortTags : ServiceTags → ServiceTags)
    (d : NomadServiceQuery) (client : ClientSet) (opts : QueryOptions)
    (entries : List ServiceRegistration) (qm : QueryMeta) (hd : d.stopCh ≠ .closed)
    (h : client.get d.name (opts.Merge { Region := d.region }) = .ok (entries, qm)) :
    d.Fetch sortTags client opts =
      { requests := [.get d.name (opts.Merge { Region := d.region })]
        value := some (entries.map (fun s =>
          ({ ID := s.ID, Name := s.ServiceName, Node := s.NodeID, Address := s.Address,
             Port := s.Port, Datacenter := s.Datacenter, Tags := sortTags s.Tags,
             JobID := s.JobID, AllocID := s.AllocID } : NomadService)))
        rm := some { LastIndex := qm.LastIndex }
        err := none } := by
  simp only [NomadServiceQuery.Fetch, Chan_recvReady_of_ne_closed _ hd, h]
  rfl

/-- C19: a successful `Fetch` of a `NomadServiceQuery` returns one record per
entry of the backend response, in the same order, record `i` carrying the ID,
ServiceName (as Name), NodeID (as Node), Address, Port, Datacenter, JobID and
AllocID of entry `i` and, as Tags, the sorted copy of its tags. -/
theorem NomadServiceQuery_Fetch_mapping (d : NomadServiceQuery) (client : ClientSet)
    (opts : QueryOptions) (entries : List ServiceRegistration) (qm : QueryMeta)
    (hd : d.stopCh ≠ .closed)
    (h : client.get d.name (opts.Merge { Region := d.region }) = .ok (entries, qm)) :
    ∃ out, (d.Fetch deepCopyAndSortTags client opts).value = some out ∧
      (d.Fetch deepCopyAndSortTags client opts).err = none ∧
      out.length = entries.length ∧
      ∀ i (hi : i < entries.length) (ho : i < out.length),
        (out.get ⟨i, ho⟩).ID = (entries.get ⟨i, hi⟩).ID ∧
        (out.get ⟨i, ho⟩).Name = (entries.get ⟨i, hi⟩).ServiceName ∧
        (out.get ⟨i, ho⟩).Node = (entries.get ⟨i, hi⟩).NodeID ∧
        (out.get ⟨i, ho⟩).Address = (entries.get ⟨i, hi⟩).Address ∧
        (out.get ⟨i, ho⟩).Port = (entries.get ⟨i, hi⟩).Port ∧
        (out.get ⟨i, ho⟩).Datacenter = (entries.get ⟨i, hi⟩).Datacenter ∧
        (out.get ⟨i, ho⟩).JobID = (entries.get ⟨i, hi⟩).JobID ∧
        (out.get ⟨i, ho⟩).AllocID = (entries.get ⟨i, hi⟩).AllocID ∧
        ((out.get ⟨i, ho⟩).Tags).Sorted (fun a b => a ≤ b) ∧
        ((out.get ⟨i, ho⟩).Tags).Perm (entries.get ⟨i, hi⟩).Tags := by
  refine ⟨entries.map serviceOfRegistration, ?_, ?_, by simp, ?_⟩
  · rw [NomadServiceQuery_Fetch_ok deepCopyAndSortTags d client opts entries qm hd h]
    rfl
  · rw [NomadServiceQuery_Fetch_ok deepCopyAndSortTags d client opts entries qm hd h]
  · intro i hi ho
    simp only [List.get_eq_getElem, List.getElem_map, serviceOfRegistration, deepCopyAndSortTags,
      true_and]
    exact ⟨List.sorted_insertionSort _ _, List.perm_insertionSort _ _⟩

/-- Witness of C19: the query of `web` answered with one entry. -/
theorem NomadServiceQuery_Fetch_mapping_witness :
    (⟨.opened, "", "web", ""⟩ : NomadServiceQuery).stopCh ≠ .closed ∧
    ∃ out, ((⟨.opened, "", "web", ""⟩ : NomadServiceQuery).Fetch deepCopyAndSortTags
        (answeringClient [sampleRegistration] [] ⟨7, 5⟩) {}).value = some out ∧
      out.length = 1 :=
  let ⟨out, h1, _, h3, _⟩ := NomadServiceQuery_Fetch_mapping ⟨.opened, "", "web", ""⟩
    (answeringClient [sampleRegistration] [] ⟨7, 5⟩) {} [sampleRegistration] ⟨7, 5⟩
    (by decide) rfl
  ⟨by decide, out, h1, h3⟩

theorem NomadServiceQuery_String_inj_tag (ch1 ch2 : Chan) (region name tag1 tag2 : String)
    (h : (⟨ch1, region, name, tag1⟩ : NomadServiceQuery).String =
      (⟨ch2, region, name, tag2⟩ : NomadServiceQuery).String) : tag1 = tag2 := by
  have hd := congrArg String.data h
  rw [NomadServiceQuery_String_data, NomadServiceQuery_String_data] at hd
  simp only [List.append_cancel_left_eq, List.append_cancel_right_eq] at hd
  exact String.ext (optTag_inj _ _ hd)

/-- C20: two queries that are not stopped and differ only in the tag issue the
same request to the same client under the same options, a request by name
that does not carry the tag, and return the same service list and the same
metadata, while their `String()` forms differ. -/
theorem NomadServiceQuery_Fetch_ignores_tag (sortTags : ServiceTags → ServiceTags)
    (d1 d2 : NomadServiceQuery) (client : ClientSet) (opts : QueryOptions)
    (h1 : d1.stopCh ≠ .closed) (h2 : d2.stopCh ≠ .closed)
    (hname : d1.name = d2.name) (hregion : d1.region = d2.region) (htag : d1.tag ≠ d2.tag) :
    (d1.Fetch sortTags client opts).requests =
      [.get d1.name (opts.Merge { Region := d1.region })] ∧
    (d1.Fetch sortTags client opts).requests = (d2.Fetch sortTags client opts).requests ∧
    (d1.Fetch sortTags client opts).value = (d2.Fetch sortTags client opts).value ∧
    (d1.Fetch sortTags client opts).rm = (d2.Fetch sortTags client opts).rm ∧
    ((d1.Fetch sortTags client opts).err = none ↔ (d2.Fetch sortTags client opts).err = none) ∧
    d1.String ≠ d2.String := by
  obtain ⟨c1, r1, n1, t1⟩ := d1
  obtain ⟨c2, r2, n2, t2⟩ := d2
  simp only at hname hregion htag h1 h2
  subst hname hregion
  have hs : (⟨c1, r1, n1, t1⟩ : NomadServiceQuery).String ≠
      (⟨c2, r1, n1, t2⟩ : NomadServiceQuery).String :=
    fun h => htag (NomadServiceQuery_String_inj_tag _ _ _ _ _ _ h)
  simp only [NomadServiceQuery.Fetch, Chan_recvReady_of_ne_closed _ h1,
    Chan_recvReady_of_ne_closed _ h2]
  cases hg : client.get n1 (opts.Merge { Region := r1 }) with
  | error e => exact ⟨rfl, rfl, rfl, rfl, by simp, hs⟩
  | ok v => exact ⟨rfl, rfl, rfl, rfl, by simp, hs⟩

/-- Witness of C20: the queries of `web` and `canary.web` answered with one
entry. -/
theorem NomadServiceQuery_Fetch_ignores_tag_witness :
    ((⟨.opened, "", "web", ""⟩ : NomadServiceQuery).Fetch id
        (answeringClient [sampleRegistration] [] ⟨7, 5⟩) {}).value =
      ((⟨.opened, "", "web", "canary"⟩ : NomadServiceQuery).Fetch id
        (answeringClient [sampleRegistration] [] ⟨7, 5⟩) {}).value ∧
    (⟨.opened, "", "web", ""⟩ : NomadServiceQuery).String ≠
      (⟨.opened, "", "web", "canary"⟩ : NomadServiceQuery).String :=
  have h := NomadServiceQuery_Fetch_ignores_tag id ⟨.opened, "", "web", ""⟩
    ⟨.opened, "", "web", "canary"⟩ (answeringClient [sampleRegistration] [] ⟨7, 5⟩) {}
    (by decide) (by decide) rfl rfl (by decide)
  ⟨h.2.2.1, h.2.2.2.2.2⟩


/-! ## Lemmas on `sort.Stable` -/

theorem sort_mem_slice {α : Type} (w : List α) (a b : Nat) (x : α) :
    x ∈ (w.drop a).take (b - a) ↔ ∃ i, ∃ h : i < w.length, a ≤ i ∧ i < b ∧ w[i] = x := by
  rw [List.mem_iff_getElem]
  constructor
  · rintro ⟨k, hk, rfl⟩
    simp only [List.length_take, List.length_drop, lt_min_iff] at hk
    refine ⟨a + k, by omega, by omega, by omega, ?_⟩
    simp [List.getElem_take, List.getElem_drop]
  · rintro ⟨i, hi, hai, hib, rfl⟩
    refine ⟨i - a, ?_, ?_⟩
    · simp only [List.length_take, List.length_drop, lt_min_iff]
      omega
    · simp only [List.getElem_take, List.getElem_drop]
      congr 1
      omega

theorem sort_pairwise_slice {α : Type} (R : α → α → Prop) (w : List α) (a b : Nat) :
    ((w.drop a).take (b - a)).Pairwise R ↔
      ∀ i j, ∀ hi : i < w.length, ∀ hj : j < w.length, a ≤ i → i < j → j < b → R w[i] w[j] := by
  rw [List.pairwise_iff_getElem]
  constructor
  · intro h i j hi hj hai hij hjb
    have := h (i - a) (j - a)
      (by simp only [List.length_take, List.length_drop, lt_min_iff]; omega)
      (by simp only [List.length_take, List.length_drop, lt_min_iff]; omega) (by omega)
    simp only [List.getElem_take, List.getElem_drop] at this
    have e1 : a + (i - a) = i := by omega
    have e2 : a + (j - a) = j := by omega
    simpa only [e1, e2] using this
  · intro h i j hi hj hij
    simp only [List.length_take, List.length_drop, lt_min_iff] at hi hj
    simp only [List.getElem_take, List.getElem_drop]
    exact h (a + i) (a + j) (by omega) (by omega) (by omega) (by omega) (by omega)

theorem sort_less_refl {α : Type} (less : α → α → Bool)
    (htot : ∀ a b, less a b = true ∨ less b a = true) (a : α) : less a a = true := by
  rcases htot a a with h | h <;> exact h

theorem sort_sorted_get {α : Type} (less : α → α → Bool)
    (htot : ∀ a b, less a b = true ∨ less b a = true) (w : List α) (a b : Nat)
    (hs : ((w.drop a).take (b - a)).Pairwise (fun x y => less x y = true))
    (i j : Nat) (hi : i < w.length) (hj : j < w.length) (hai : a ≤ i) (hij : i ≤ j)
    (hjb : j < b) : less w[i] w[j] = true := by
  rcases Nat.lt_or_eq_of_le hij with h | h
  · exact (sort_pairwise_slice _ w a b).1 hs i j hi hj hai h hjb
  · subst h
    exact sort_less_refl less htot _

theorem sort_lessAt_eq {α : Type} (less : α → α → Bool) (w : List α) (i j : Nat)
    (hi : i < w.length) (hj : j < w.length) : sort.lessAt less w i j = less w[i] w[j] := by
  simp [sort.lessAt, List.getElem?_eq_getElem hi, List.getElem?_eq_getElem hj]

theorem sort_insertLeft_perm {α : Type} (less : α → α → Bool) (x : α) (l : List α) :
    (sort.insertLeft less x l).Perm (x :: l) := by
  induction l with
  | nil => exact List.Perm.refl _
  | cons y ys ih =>
    simp only [sort.insertLeft]
    split
    · exact ((List.Perm.cons y ih).trans (List.Perm.swap x y ys))
    · exact List.Perm.refl _

theorem sort_insertLeft_sorted {α : Type} (less : α → α → Bool)
    (htot : ∀ a b, less a b = true ∨ less b a = true)
    (htr : ∀ a b c, less a b = true → less b c = true → less a c = true)
    (x : α) (l : List α) (hl : l.Pairwise (fun a b => less b a = true)) :
    (sort.insertLeft less x l).Pairwise (fun a b => less b a = true) := by
  induction l with
  | nil => simp [sort.insertLeft]
  | cons y ys ih =>
    rw [List.pairwise_cons] at hl
    simp only [sort.insertLeft]
    split
    · rename_i hxy
      rw [List.pairwise_cons]
      refine ⟨?_, ih hl.2⟩
      intro z hz
      rcases List.mem_cons.1 ((sort_insertLeft_perm less x ys).subset hz) with rfl | hz
      · exact hxy
      · exact hl.1 z hz
    · rename_i hxy
      have hyx : less y x = true := by
        rcases htot x y with h | h
        · exact absurd h hxy
        · exact h
      rw [List.pairwise_cons]
      refine ⟨?_, List.pairwise_cons.2 hl⟩
      intro z hz
      rcases List.mem_cons.1 hz with rfl | hz
      · exact hyx
      · exact htr _ _ _ (hl.1 z hz) hyx

theorem sort_insertionSort_perm {α : Type} (less : α → α → Bool) (l : List α) :
    (sort.insertionSort less l).Perm l := by
  have key : ∀ (l acc : List α),
      (l.foldl (fun acc x => sort.insertLeft less x acc) acc).Perm (l.reverse ++ acc) := by
    intro l
    induction l with
    | nil => intro acc; exact List.Perm.refl _
    | cons x xs ih =>
      intro acc
      simp only [List.foldl_cons, List.reverse_cons, List.append_assoc, List.singleton_append]
      exact (ih _).trans (List.Perm.append_left _ (sort_insertLeft_perm less x acc))
  unfold sort.insertionSort
  have := key l []
  rw [List.append_nil] at this
  exact (List.reverse_perm _).trans (this.trans (List.reverse_perm _))

theorem sort_insertionSort_sorted {α : Type} (less : α → α → Bool)
    (htot : ∀ a b, less a b = true ∨ less b a = true)
    (htr : ∀ a b c, less a b = true → less b c = true → less a c = true) (l : List α) :
    (sort.insertionSort less l).Pairwise (fun a b => less a b = true) := by
  have key : ∀ (l acc : List α), acc.Pairwise (fun a b => less b a = true) →
      (l.foldl (fun acc x => sort.insertLeft less x acc) acc).Pairwise
        (fun a b => less b a = true) := by
    intro l
    induction l with
    | nil => intro acc h; exact h
    | cons x xs ih =>
      intro acc h
      exact ih _ (sort_insertLeft_sorted less htot htr x acc h)
  unfold sort.insertionSort
  rw [List.pairwise_reverse]
  exact key l [] List.Pairwise.nil

theorem sort_search_ge (p : Nat → Bool) (fuel i j : Nat) : i ≤ sort.search p fuel i j := by
  induction fuel generalizing i j with
  | zero => simp [sort.search]
  | succ f ih =>
    simp only [sort.search]
    split
    · split
      · have := ih ((i + j) / 2 + 1) j
        omega
      · exact ih _ _
    · exact Nat.le_refl _

theorem sort_search_le (p : Nat → Bool) (fuel i j : Nat) (hij : i ≤ j) :
    sort.search p fuel i j ≤ j := by
  induction fuel generalizing i j with
  | zero => simpa [sort.search] using hij
  | succ f ih =>
    simp only [sort.search]
    split
    · split
      · exact ih _ _ (by omega)
      · have := ih i ((i + j) / 2) (by omega)
        omega
    · exact hij

theorem sort_search_spec (p : Nat → Bool) (fuel i j : Nat) (hij : i ≤ j) (hf : j - i ≤ fuel) :
    (sort.search p fuel i j = i ∨ p (sort.search p fuel i j - 1) = true) ∧
    (sort.search p fuel i j = j ∨ p (sort.search p fuel i j) = false) := by
  induction fuel generalizing i j with
  | zero =>
    have : i = j := by omega
    subst this
    simp [sort.search]
  | succ f ih =>
    simp only [sort.search]
    split
    · rename_i hlt
      split
      · rename_i hp
        obtain ⟨h1, h2⟩ := ih ((i + j) / 2 + 1) j (by omega) (by omega)
        refine ⟨Or.inr ?_, h2⟩
        rcases h1 with h1 | h1
        · rw [h1]; simpa using hp
        · exact h1
      · rename_i hp
        obtain ⟨h1, h2⟩ := ih i ((i + j) / 2) (by omega) (by omega)
        refine ⟨h1, Or.inr ?_⟩
        rcases h2 with h2 | h2
        · rw [h2]; simpa using hp
        · exact h2
    · rename_i hlt
      have : i = j := by omega
      subst this
      exact ⟨Or.inl rfl, Or.inl rfl⟩

theorem sort_drop_split {α : Type} (w : List α) (a m : Nat) (h : a ≤ m) :
    (w.drop a).take (m - a) ++ w.drop m = w.drop a := by
  have h1 : w.drop m = (w.drop a).drop (m - a) := by
    rw [List.drop_drop]
    congr 1
    omega
  rw [h1, List.take_append_drop]

theorem sort_split4 {α : Type} (w : List α) (a m b : Nat) (h1 : a ≤ m) (h2 : m ≤ b) :
    w.take a ++ (w.drop a).take (m - a) ++ (w.drop m).take (b - m) ++ w.drop b = w := by
  rw [List.append_assoc, List.append_assoc, sort_drop_split w m b h2, sort_drop_split w a m h1,
    List.take_append_drop]

theorem sort_rotate_perm {α : Type} (w : List α) (a m b : Nat) (h1 : a ≤ m) (h2 : m ≤ b) :
    (sort.rotate w a m b).Perm w := by
  have h := sort_split4 w a m b h1 h2
  unfold sort.rotate
  have hp : (w.take a ++ (w.drop m).take (b - m) ++ (w.drop a).take (m - a) ++ w.drop b).Perm
      (w.take a ++ (w.drop a).take (m - a) ++ (w.drop m).take (b - m) ++ w.drop b) := by
    simp only [List.append_assoc]
    refine List.Perm.append_left _ ?_
    rw [← List.append_assoc, ← List.append_assoc]
    exact List.Perm.append_right _ List.perm_append_comm
  rw [h] at hp
  exact hp

theorem sort_symMerge_perm {α : Type} (less : α → α → Bool) (fuel : Nat) (w : List α)
    (m : Nat) : (sort.symMerge less fuel w m).Perm w := by
  induction fuel generalizing w m with
  | zero => exact List.Perm.refl _
  | succ f ih =>
    simp only [sort.symMerge]
    split
    · rename_i hm
      subst hm
      have hge := sort_search_ge (fun h => sort.lessAt less w h 0) (w.length - 1) 1 w.length
      generalize sort.search (fun h => sort.lessAt less w h 0) (w.length - 1) 1 w.length = i
        at hge
      have h1 : (w.drop 1).take (i - 1) ++ w.drop i = w.drop 1 := sort_drop_split w 1 i hge
      have h2 : w.take 1 ++ w.drop 1 = w := List.take_append_drop 1 w
      have hp : ((w.drop 1).take (i - 1) ++ w.take 1 ++ w.drop i).Perm
          (w.take 1 ++ ((w.drop 1).take (i - 1) ++ w.drop i)) := by
        rw [← List.append_assoc]
        exact List.Perm.append_right _ List.perm_append_comm
      rw [h1, h2] at hp
      exact hp
    · split
      · have hle := sort_search_le (fun h => !sort.lessAt less w m h) m 0 m (Nat.zero_le _)
        generalize sort.search (fun h => !sort.lessAt less w m h) m 0 m = i at hle
        have h1 : (w.drop i).take (m - i) ++ w.drop m = w.drop i := sort_drop_split w i m hle
        have h2 : w.take i ++ w.drop i = w := List.take_append_drop i w
        have hp : (w.take i ++ w.drop m ++ (w.drop i).take (m - i)).Perm
            (w.take i ++ ((w.drop i).take (m - i) ++ w.drop m)) := by
          rw [List.append_assoc]
          exact List.Perm.append_left _ List.perm_append_comm
        rw [h1, h2] at hp
        exact hp
      · generalize sort.symStart less w m = start
        have hw1 : (if start < m ∧ m < w.length / 2 + m - start then
            sort.rotate w start m (w.length / 2 + m - start) else w).Perm w := by
          split
          · rename_i hg
            exact sort_rotate_perm w _ _ _ (by omega) (by omega)
          · exact List.Perm.refl _
        generalize (if start < m ∧ m < w.length / 2 + m - start then
            sort.rotate w start m (w.length / 2 + m - start) else w) = w1 at hw1
        have hl : (if 0 < start ∧ start < w.length / 2 then
            sort.symMerge less f (w1.take (w.length / 2)) start
            else w1.take (w.length / 2)).Perm (w1.take (w.length / 2)) := by
          split
          · exact ih _ _
          · exact List.Perm.refl _
        have hr : (if w.length / 2 < w.length / 2 + m - start ∧
            w.length / 2 + m - start < w.length then
            sort.symMerge less f (w1.drop (w.length / 2)) (w.length / 2 + m - start - w.length / 2)
            else w1.drop (w.length / 2)).Perm (w1.drop (w.length / 2)) := by
          split
          · exact ih _ _
          · exact List.Perm.refl _
        have := (hl.append hr)
        rw [List.take_append_drop] at this
        exact this.trans hw1

theorem sort_not_less {α : Type} (less : α → α → Bool)
    (htot : ∀ a b, less a b = true ∨ less b a = true) (a b : α) (h : less a b = false) :
    less b a = true := by
  rcases htot a b with h1 | h1
  · rw [h] at h1; cases h1
  · exact h1

theorem sort_symStart_facts {α : Type} (less : α → α → Bool) (w : List α) (m : Nat)
    (hm : 1 < m) (hmb : m + 2 ≤ w.length) :
    sort.symStart less w m ≤ w.length / 2 ∧ sort.symStart less w m ≤ m ∧
    w.length / 2 + m - sort.symStart less w m ≤ w.length ∧
    (0 < sort.symStart less w m → w.length / 2 + m - sort.symStart less w m < w.length →
      sort.lessAt less w (w.length / 2 + m - sort.symStart less w m)
        (sort.symStart less w m - 1) = false) ∧
    (sort.symStart less w m < m → m < w.length / 2 + m - sort.symStart less w m →
      sort.lessAt less w (w.length / 2 + m - sort.symStart less w m - 1)
        (sort.symStart less w m) = true) := by
  simp only [sort.symStart]
  generalize hP : (fun c => !sort.lessAt less w (w.length / 2 + m - 1 - c) c) = P
  by_cases hc : m > w.length / 2
  · simp only [hc, if_true]
    have hge := sort_search_ge P (w.length / 2 - (w.length / 2 + m - w.length))
      (w.length / 2 + m - w.length) (w.length / 2)
    have hle := sort_search_le P (w.length / 2 - (w.length / 2 + m - w.length))
      (w.length / 2 + m - w.length) (w.length / 2) (by omega)
    have hsp := sort_search_spec P (w.length / 2 - (w.length / 2 + m - w.length))
      (w.length / 2 + m - w.length) (w.length / 2) (by omega) (Nat.le_refl _)
    generalize sort.search P (w.length / 2 - (w.length / 2 + m - w.length))
      (w.length / 2 + m - w.length) (w.length / 2) = s at hge hle hsp
    refine ⟨hle, by omega, by omega, ?_, ?_⟩
    · intro h0 hb
      rcases hsp.1 with h | h
      · omega
      · rw [← hP] at h
        simp only [Bool.not_eq_true'] at h
        have e : w.length / 2 + m - 1 - (s - 1) = w.length / 2 + m - s := by omega
        rw [e] at h
        exact h
    · intro h1 h2
      rcases hsp.2 with h | h
      · omega
      · rw [← hP] at h
        simp only [Bool.not_eq_false'] at h
        have e : w.length / 2 + m - 1 - s = w.length / 2 + m - s - 1 := by omega
        rw [e] at h
        exact h
  · simp only [hc, if_false]
    have hle := sort_search_le P (m - 0) 0 m (Nat.zero_le _)
    have hsp := sort_search_spec P (m - 0) 0 m (Nat.zero_le _) (Nat.le_refl _)
    generalize sort.search P (m - 0) 0 m = s at hle hsp
    refine ⟨by omega, hle, by omega, ?_, ?_⟩
    · intro h0 hb
      rcases hsp.1 with h | h
      · omega
      · rw [← hP] at h
        simp only [Bool.not_eq_true'] at h
        have e : w.length / 2 + m - 1 - (s - 1) = w.length / 2 + m - s := by omega
        rw [e] at h
        exact h
    · intro h1 h2
      rcases hsp.2 with h | h
      · omega
      · rw [← hP] at h
        simp only [Bool.not_eq_false'] at h
        have e : w.length / 2 + m - 1 - s = w.length / 2 + m - s - 1 := by omega
        rw [e] at h
        exact h

theorem sort_mem_take {α : Type} (w : List α) (a : Nat) (x : α) :
    x ∈ w.take a ↔ ∃ i, ∃ h : i < w.length, i < a ∧ w[i] = x := by
  have := sort_mem_slice w 0 a x
  simp only [List.drop_zero, Nat.sub_zero, Nat.zero_le, true_and] at this
  exact this

theorem sort_mem_drop {α : Type} (w : List α) (a : Nat) (x : α) :
    x ∈ w.drop a ↔ ∃ i, ∃ h : i < w.length, a ≤ i ∧ w[i] = x := by
  have := sort_mem_slice w a w.length x
  rw [List.take_of_length_le (by simp)] at this
  rw [this]
  constructor
  · rintro ⟨i, h, h1, -, h3⟩
    exact ⟨i, h, h1, h3⟩
  · rintro ⟨i, h, h1, h3⟩
    exact ⟨i, h, h1, h, h3⟩

theorem sort_ordered_take {α : Type} (less : α → α → Bool)
    (htot : ∀ a b, less a b = true ∨ less b a = true) (w : List α) (m : Nat)
    (hs : (w.take m).Pairwise (fun x y => less x y = true))
    (i j : Nat) (hi : i < w.length) (hj : j < w.length) (hij : i ≤ j) (hjm : j < m) :
    less w[i] w[j] = true := by
  have h : ((w.drop 0).take (m - 0)).Pairwise (fun x y => less x y = true) := by
    simpa using hs
  exact sort_sorted_get less htot w 0 m h i j hi hj (Nat.zero_le _) hij hjm

theorem sort_ordered_drop {α : Type} (less : α → α → Bool)
    (htot : ∀ a b, less a b = true ∨ less b a = true) (w : List α) (m : Nat)
    (hs : (w.drop m).Pairwise (fun x y => less x y = true))
    (i j : Nat) (hi : i < w.length) (hj : j < w.length) (hmi : m ≤ i) (hij : i ≤ j) :
    less w[i] w[j] = true := by
  have h : ((w.drop m).take (w.length - m)).Pairwise (fun x y => less x y = true) := by
    rw [List.take_of_length_le (by simp)]
    exact hs
  exact sort_sorted_get less htot w m w.length h i j hi hj hmi hij hj

theorem sort_pairwise_of_ordered {α : Type} (less : α → α → Bool) (w : List α) (a b c : Nat)
    (h : ∀ i j, ∀ hi : i < w.length, ∀ hj : j < w.length, c ≤ i → i ≤ j → j < b →
      less w[i] w[j] = true) (hca : c ≤ a) :
    ((w.drop a).take (b - a)).Pairwise (fun x y => less x y = true) := by
  rw [sort_pairwise_slice]
  intro i j hi hj hai hij hjb
  exact h i j hi hj (by omega) (by omega) hjb

theorem sort_pairwise_take_of_ordered {α : Type} (less : α → α → Bool) (w : List α) (b : Nat)
    (h : ∀ i j, ∀ hi : i < w.length, ∀ hj : j < w.length, i ≤ j → j < b →
      less w[i] w[j] = true) :
    (w.take b).Pairwise (fun x y => less x y = true) := by
  have := sort_pairwise_of_ordered less w 0 b 0 (fun i j hi hj _ hij hjb => h i j hi hj hij hjb)
    (Nat.le_refl _)
  simpa using this

theorem sort_pairwise_drop_of_ordered {α : Type} (less : α → α → Bool) (w : List α) (a c : Nat)
    (h : ∀ i j, ∀ hi : i < w.length, ∀ hj : j < w.length, c ≤ i → i ≤ j →
      less w[i] w[j] = true) (hca : c ≤ a) :
    (w.drop a).Pairwise (fun x y => less x y = true) := by
  have := sort_pairwise_of_ordered less w a w.length c
    (fun i j hi hj hci hij _ => h i j hi hj hci hij) hca
  rw [List.take_of_length_le (by simp)] at this
  exact this

theorem sort_rotate_pieces {α : Type} (w : List α) (s m e : Nat) (h1 : s ≤ m) (h2 : m ≤ e) :
    (if s < m ∧ m < e then sort.rotate w s m e else w) =
      (w.take s ++ (w.drop m).take (e - m)) ++ ((w.drop s).take (m - s) ++ w.drop e) := by
  split
  · simp only [sort.rotate, List.append_assoc]
  · rename_i hg
    have h := sort_split4 w s m e h1 h2
    by_cases hsm : s = m
    · subst hsm
      simp only [Nat.sub_self, List.take_zero, List.append_nil, List.nil_append] at h ⊢
      exact h.symm
    · have hme : m = e := by omega
      subst hme
      simp only [Nat.sub_self, List.take_zero, List.append_nil, List.nil_append] at h ⊢
      simp only [List.append_assoc] at h
      exact h.symm

theorem sort_symMerge_sorted {α : Type} (less : α → α → Bool)
    (htot : ∀ a b, less a b = true ∨ less b a = true)
    (htr : ∀ a b c, less a b = true → less b c = true → less a c = true)
    (fuel : Nat) (w : List α) (m : Nat) (hf : w.length ≤ fuel) (hm0 : 0 < m)
    (hmb : m < w.length) (hu : (w.take m).Pairwise (fun x y => less x y = true))
    (hv : (w.drop m).Pairwise (fun x y => less x y = true)) :
    (sort.symMerge less fuel w m).Pairwise (fun x y => less x y = true) := by
  induction fuel generalizing w m with
  | zero => omega
  | succ f ih =>
    have HU := sort_ordered_take less htot w m hu
    have HV := sort_ordered_drop less htot w m hv
    simp only [sort.symMerge]
    split
    · rename_i hm1
      subst hm1
      have hge := sort_search_ge (fun h => sort.lessAt less w h 0) (w.length - 1) 1 w.length
      have hle := sort_search_le (fun h => sort.lessAt less w h 0) (w.length - 1) 1 w.length
        (by omega)
      have hsp := sort_search_spec (fun h => sort.lessAt less w h 0) (w.length - 1) 1 w.length
        (by omega) (Nat.le_refl _)
      generalize sort.search (fun h => sort.lessAt less w h 0) (w.length - 1) 1 w.length = i
        at hge hle hsp
      simp only at hsp
      rw [List.pairwise_append, List.pairwise_append]
      refine ⟨⟨sort_pairwise_of_ordered less w 1 i 1
          (fun a b ha hb h1 h2 _ => HV a b ha hb h1 h2) (Nat.le_refl _),
        sort_pairwise_take_of_ordered less w 1
          (fun a b ha hb h1 h2 => HU a b ha hb h1 h2), ?_⟩,
        sort_pairwise_drop_of_ordered less w i 1
          (fun a b ha hb h1 h2 => HV a b ha hb h1 h2) hge, ?_⟩
      · intro x hx y hy
        obtain ⟨k, hk, hk1, hk2, rfl⟩ := (sort_mem_slice w 1 i x).1 hx
        obtain ⟨k', hk', hk3, rfl⟩ := (sort_mem_take w 1 y).1 hy
        have h0 : k' = 0 := by omega
        subst h0
        rcases hsp.1 with h | h
        · omega
        · rw [sort_lessAt_eq less w _ _ (by omega) hk'] at h
          exact htr _ _ _ (HV k (i - 1) hk (by omega) hk1 (by omega)) h
      · intro x hx z hz
        obtain ⟨k', hk', hk3, rfl⟩ := (sort_mem_drop w i z).1 hz
        rcases List.mem_append.1 hx with hx | hx
        · obtain ⟨k, hk, hk1, hk2, rfl⟩ := (sort_mem_slice w 1 i x).1 hx
          exact HV k k' hk hk' hk1 (by omega)
        · obtain ⟨k, hk, hk1, rfl⟩ := (sort_mem_take w 1 x).1 hx
          have h0 : k = 0 := by omega
          subst h0
          rcases hsp.2 with h | h
          · omega
          · rw [sort_lessAt_eq less w _ _ (by omega) hk] at h
            exact htr _ _ _ (sort_not_less less htot _ _ h)
              (HV i k' (by omega) hk' (by omega) hk3)
    · rename_i hm1
      split
      · rename_i hb1
        have hle := sort_search_le (fun h => !sort.lessAt less w m h) m 0 m (Nat.zero_le _)
        have hsp := sort_search_spec (fun h => !sort.lessAt less w m h) m 0 m (Nat.zero_le _)
          (Nat.le_refl _)
        generalize sort.search (fun h => !sort.lessAt less w m h) m 0 m = i at hle hsp
        simp only [Bool.not_eq_true', Bool.not_eq_false'] at hsp
        rw [List.pairwise_append, List.pairwise_append]
        refine ⟨⟨sort_pairwise_take_of_ordered less w i
            (fun a b ha hb h1 h2 => HU a b ha hb h1 (by omega)), hv, ?_⟩,
          sort_pairwise_of_ordered less w i m 0
            (fun a b ha hb _ h2 h3 => HU a b ha hb h2 h3) (Nat.zero_le _), ?_⟩
        · intro x hx y hy
          obtain ⟨k, hk, hk1, rfl⟩ := (sort_mem_take w i x).1 hx
          obtain ⟨k', hk', hk3, rfl⟩ := (sort_mem_drop w m y).1 hy
          rcases hsp.1 with h | h
          · omega
          · rw [sort_lessAt_eq less w _ _ (by omega) (by omega)] at h
            exact htr _ _ _ (htr _ _ _ (HU k (i - 1) hk (by omega) (by omega) (by omega))
              (sort_not_less less htot _ _ h)) (HV m k' hmb hk' (Nat.le_refl _) hk3)
        · intro x hx z hz
          obtain ⟨k', hk', hk3, hk4, rfl⟩ := (sort_mem_slice w i m z).1 hz
          rcases List.mem_append.1 hx with hx | hx
          · obtain ⟨k, hk, hk1, rfl⟩ := (sort_mem_take w i x).1 hx
            exact HU k k' hk hk' (by omega) hk4
          · obtain ⟨k, hk, hk1, rfl⟩ := (sort_mem_drop w m x).1 hx
            have h0 : k = m := by omega
            subst h0
            rcases hsp.2 with h | h
            · omega
            · rw [sort_lessAt_eq less w _ _ hk (by omega)] at h
              exact htr _ _ _ h (HU i k' (by omega) hk' hk3 hk4)
      · rename_i hb1
        have hm2 : 1 < m := by omega
        have hmb2 : m + 2 ≤ w.length := by omega
        obtain ⟨hs1, hs2, hs3, hs4, hs5⟩ := sort_symStart_facts less w m hm2 hmb2
        generalize sort.symStart less w m = s at hs1 hs2 hs3 hs4 hs5
        rw [sort_rotate_pieces w s m (w.length / 2 + m - s) hs2 (by omega)]
        have hlen : (w.take s ++ (w.drop m).take (w.length / 2 + m - s - m)).length =
            w.length / 2 := by
          simp only [List.length_append, List.length_take, List.length_drop]
          omega
        have hlenA : (w.take s).length = s := by
          simp only [List.length_take]
          omega
        have hlenC : ((w.drop s).take (m - s)).length = w.length / 2 + m - s - w.length / 2 := by
          simp only [List.length_take, List.length_drop]
          omega
        rw [List.take_left' hlen, List.drop_left' hlen]
        have hA : (w.take s).Pairwise (fun x y => less x y = true) :=
          sort_pairwise_take_of_ordered less w s
            (fun a b ha hb h1 h2 => HU a b ha hb h1 (by omega))
        have hB : ((w.drop m).take (w.length / 2 + m - s - m)).Pairwise
            (fun x y => less x y = true) :=
          sort_pairwise_of_ordered less w m (w.length / 2 + m - s) m
            (fun a b ha hb h1 h2 _ => HV a b ha hb h1 h2) (Nat.le_refl _)
        have hC : ((w.drop s).take (m - s)).Pairwise (fun x y => less x y = true) :=
          sort_pairwise_of_ordered less w s m 0
            (fun a b ha hb _ h2 h3 => HU a b ha hb h2 h3) (Nat.zero_le _)
        have hD : (w.drop (w.length / 2 + m - s)).Pairwise (fun x y => less x y = true) :=
          sort_pairwise_drop_of_ordered less w (w.length / 2 + m - s) m
            (fun a b ha hb h1 h2 => HV a b ha hb h1 h2) (by omega)
        have hL : (if 0 < s ∧ s < w.length / 2 then
            sort.symMerge less f (w.take s ++ (w.drop m).take (w.length / 2 + m - s - m)) s
            else w.take s ++ (w.drop m).take (w.length / 2 + m - s - m)).Pairwise
              (fun x y => less x y = true) := by
          split
          · rename_i hg
            refine ih _ s (by omega) hg.1 (by omega) ?_ ?_
            · rw [List.take_left' hlenA]; exact hA
            · rw [List.drop_left' hlenA]; exact hB
          · rename_i hg
            rw [List.pairwise_append]
            refine ⟨hA, hB, ?_⟩
            intro x hx y hy
            obtain ⟨k, hk, hk1, rfl⟩ := (sort_mem_take w s x).1 hx
            obtain ⟨k', hk', hk2, hk3, rfl⟩ := (sort_mem_slice w m _ y).1 hy
            omega
        have hLsub : ∀ x ∈ (if 0 < s ∧ s < w.length / 2 then
            sort.symMerge less f (w.take s ++ (w.drop m).take (w.length / 2 + m - s - m)) s
            else w.take s ++ (w.drop m).take (w.length / 2 + m - s - m)),
            x ∈ w.take s ++ (w.drop m).take (w.length / 2 + m - s - m) := by
          intro x hx
          split at hx
          · exact (sort_symMerge_perm less f _ _).subset hx
          · exact hx
        have hR : (if w.length / 2 < w.length / 2 + m - s ∧ w.length / 2 + m - s < w.length then
            sort.symMerge less f ((w.drop s).take (m - s) ++ w.drop (w.length / 2 + m - s))
              (w.length / 2 + m - s - w.length / 2)
            else (w.drop s).take (m - s) ++ w.drop (w.length / 2 + m - s)).Pairwise
              (fun x y => less x y = true) := by
          split
          · rename_i hg
            refine ih _ _ ?_ (by omega) ?_ ?_ ?_
            · simp only [List.length_append, List.length_take, List.length_drop]
              omega
            · simp only [List.length_append, List.length_take, List.length_drop]
              omega
            · rw [List.take_left' hlenC]; exact hC
            · rw [List.drop_left' hlenC]; exact hD
          · rename_i hg
            rw [List.pairwise_append]
            refine ⟨hC, hD, ?_⟩
            intro x hx y hy
            obtain ⟨k, hk, hk1, hk2, rfl⟩ := (sort_mem_slice w s m x).1 hx
            obtain ⟨k', hk', hk3, rfl⟩ := (sort_mem_drop w _ y).1 hy
            omega
        have hRsub : ∀ x ∈ (if w.length / 2 < w.length / 2 + m - s ∧
            w.length / 2 + m - s < w.length then
            sort.symMerge less f ((w.drop s).take (m - s) ++ w.drop (w.length / 2 + m - s))
              (w.length / 2 + m - s - w.length / 2)
            else (w.drop s).take (m - s) ++ w.drop (w.length / 2 + m - s)),
            x ∈ (w.drop s).take (m - s) ++ w.drop (w.length / 2 + m - s) := by
          intro x hx
          split at hx
          · exact (sort_symMerge_perm less f _ _).subset hx
          · exact hx
        rw [List.pairwise_append]
        refine ⟨hL, hR, ?_⟩
        intro x hx y hy
        rcases List.mem_append.1 (hLsub x hx) with hx | hx <;>
          rcases List.mem_append.1 (hRsub y hy) with hy | hy
        · obtain ⟨k, hk, hk1, rfl⟩ := (sort_mem_take w s x).1 hx
          obtain ⟨k', hk', hk2, hk3, rfl⟩ := (sort_mem_slice w s m y).1 hy
          exact HU k k' hk hk' (by omega) hk3
        · obtain ⟨k, hk, hk1, rfl⟩ := (sort_mem_take w s x).1 hx
          obtain ⟨k', hk', hk2, rfl⟩ := (sort_mem_drop w _ y).1 hy
          have h := hs4 (by omega) (by omega)
          rw [sort_lessAt_eq less w _ _ (by omega) (by omega)] at h
          exact htr _ _ _ (htr _ _ _ (HU k (s - 1) hk (by omega) (by omega) (by omega))
            (sort_not_less less htot _ _ h))
            (HV (w.length / 2 + m - s) k' (by omega) hk' (by omega) hk2)
        · obtain ⟨k, hk, hk1, hk2, rfl⟩ := (sort_mem_slice w m _ x).1 hx
          obtain ⟨k', hk', hk3, hk4, rfl⟩ := (sort_mem_slice w s m y).1 hy
          have h := hs5 (by omega) (by omega)
          rw [sort_lessAt_eq less w _ _ (by omega) (by omega)] at h
          exact htr _ _ _ (htr _ _ _
            (HV k (w.length / 2 + m - s - 1) hk (by omega) hk1 (by omega)) h)
            (HU s k' (by omega) hk' hk3 hk4)
        · obtain ⟨k, hk, hk1, hk2, rfl⟩ := (sort_mem_slice w m _ x).1 hx
          obtain ⟨k', hk', hk3, rfl⟩ := (sort_mem_drop w _ y).1 hy
          exact HV k k' hk hk' hk1 (by omega)

theorem sort_blocks_flatten {α : Type} (k : Nat) (hk : 0 < k) (fuel : Nat) (w : List α)
    (hf : w.length ≤ fuel) : (sort.blocks k fuel w).flatten = w := by
  induction fuel generalizing w with
  | zero =>
    have : w = [] := List.length_eq_zero.1 (by omega)
    subst this
    rfl
  | succ f ih =>
    simp only [sort.blocks]
    split
    · rename_i he
      simp only [List.isEmpty_iff] at he
      subst he
      rfl
    · rename_i he
      have hne : w ≠ [] := by simpa [List.isEmpty_iff] using he
      have hpos : 0 < w.length := List.length_pos.2 hne
      rw [List.flatten_cons, ih (w.drop k) (by simp only [List.length_drop]; omega),
        List.take_append_drop]

theorem sort_blocks_length {α : Type} (k : Nat) (fuel : Nat) (w : List α) :
    (sort.blocks k fuel w).length ≤ fuel := by
  induction fuel generalizing w with
  | zero => simp [sort.blocks]
  | succ f ih =>
    simp only [sort.blocks]
    split
    · simp
    · simp only [List.length_cons]
      have := ih (w.drop k)
      omega

theorem sort_blocks_ne_nil {α : Type} (k : Nat) (hk : 0 < k) (fuel : Nat) (w : List α) :
    ∀ x ∈ sort.blocks k fuel w, x ≠ [] := by
  induction fuel generalizing w with
  | zero => intro x hx; simp [sort.blocks] at hx
  | succ f ih =>
    intro x hx
    simp only [sort.blocks] at hx
    split at hx
    · simp at hx
    · rename_i he
      have hne : w ≠ [] := by simpa [List.isEmpty_iff] using he
      rcases List.mem_cons.1 hx with rfl | hx
      · intro h
        have := congrArg List.length h
        simp only [List.length_take, List.length_nil] at this
        have hpos : 0 < w.length := List.length_pos.2 hne
        omega
      · exact ih _ x hx

theorem sort_mergeBlocks_length {α : Type} (less : α → α → Bool) :
    ∀ l : List (List α), (sort.mergeBlocks less l).length ≤ l.length ∧
      (2 ≤ l.length → (sort.mergeBlocks less l).length < l.length)
  | [] => by simp [sort.mergeBlocks]
  | [_] => by simp [sort.mergeBlocks]
  | x :: y :: rest => by
    have := (sort_mergeBlocks_length less rest).1
    simp only [sort.mergeBlocks, List.length_cons]
    omega

theorem sort_mergeBlocks_perm {α : Type} (less : α → α → Bool) :
    ∀ l : List (List α), (sort.mergeBlocks less l).flatten.Perm l.flatten
  | [] => by simp [sort.mergeBlocks]
  | [_] => by simp [sort.mergeBlocks]
  | x :: y :: rest => by
    simp only [sort.mergeBlocks, List.flatten_cons]
    rw [← List.append_assoc]
    exact (sort_symMerge_perm less _ _ _).append (sort_mergeBlocks_perm less rest)

theorem sort_mergeBlocks_inv {α : Type} (less : α → α → Bool)
    (htot : ∀ a b, less a b = true ∨ less b a = true)
    (htr : ∀ a b c, less a b = true → less b c = true → less a c = true) :
    ∀ l : List (List α), (∀ x ∈ l, x ≠ [] ∧ x.Pairwise (fun a b => less a b = true)) →
      ∀ x ∈ sort.mergeBlocks less l, x ≠ [] ∧ x.Pairwise (fun a b => less a b = true)
  | [], _ => by simp [sort.mergeBlocks]
  | [a], h => by simpa [sort.mergeBlocks] using h
  | x :: y :: rest, h => by
    intro z hz
    simp only [sort.mergeBlocks] at hz
    have hx := h x (by simp)
    have hy := h y (by simp)
    rcases List.mem_cons.1 hz with rfl | hz
    · constructor
      · intro hnil
        have hp := sort_symMerge_perm less (x.length + y.length) (x ++ y) x.length
        rw [hnil] at hp
        have := hp.length_eq
        simp only [List.length_nil, List.length_append] at this
        have hpos : 0 < x.length := List.length_pos.2 hx.1
        omega
      · refine sort_symMerge_sorted less htot htr _ _ _ (by simp) (List.length_pos.2 hx.1) ?_ ?_ ?_
        · simp only [List.length_append]
          have hpos : 0 < y.length := List.length_pos.2 hy.1
          omega
        · rw [List.take_left' rfl]; exact hx.2
        · rw [List.drop_left' rfl]; exact hy.2
    · exact sort_mergeBlocks_inv less htot htr rest
        (fun a ha => h a (List.mem_cons_of_mem _ (List.mem_cons_of_mem _ ha))) z hz

theorem sort_mergeRounds_spec {α : Type} (less : α → α → Bool)
    (htot : ∀ a b, less a b = true ∨ less b a = true)
    (htr : ∀ a b c, less a b = true → less b c = true → less a c = true)
    (fuel : Nat) (l : List (List α))
    (hinv : ∀ x ∈ l, x ≠ [] ∧ x.Pairwise (fun a b => less a b = true))
    (hf : l.length ≤ fuel + 1) :
    (sort.mergeRounds less fuel l).length ≤ 1 ∧
    (∀ x ∈ sort.mergeRounds less fuel l, x.Pairwise (fun a b => less a b = true)) ∧
    (sort.mergeRounds less fuel l).flatten.Perm l.flatten := by
  induction fuel generalizing l with
  | zero =>
    simp only [sort.mergeRounds]
    exact ⟨by omega, fun x hx => (hinv x hx).2, List.Perm.refl _⟩
  | succ f ih =>
    simp only [sort.mergeRounds]
    split
    · rename_i h1
      exact ⟨h1, fun x hx => (hinv x hx).2, List.Perm.refl _⟩
    · rename_i h1
      have hlen := (sort_mergeBlocks_length less l).2 (by omega)
      obtain ⟨r1, r2, r3⟩ := ih (sort.mergeBlocks less l)
        (sort_mergeBlocks_inv less htot htr l hinv) (by omega)
      exact ⟨r1, r2, r3.trans (sort_mergeBlocks_perm less l)⟩

theorem sort_flatten_map_perm {α : Type} (f : List α → List α) (hf : ∀ l, (f l).Perm l) :
    ∀ l : List (List α), (l.map f).flatten.Perm l.flatten
  | [] => List.Perm.refl _
  | x :: rest => by
    simp only [List.map_cons, List.flatten_cons]
    exact (hf x).append (sort_flatten_map_perm f hf rest)

theorem sort_Stable_perm {α : Type} (less : α → α → Bool)
    (htot : ∀ a b, less a b = true ∨ less b a = true)
    (htr : ∀ a b c, less a b = true → less b c = true → less a c = true) (w : List α) :
    (sort.Stable less w).Perm w := by
  unfold sort.Stable
  have hinv : ∀ x ∈ (sort.blocks 20 w.length w).map (sort.insertionSort less),
      x ≠ [] ∧ x.Pairwise (fun a b => less a b = true) := by
    intro x hx
    obtain ⟨y, hy, rfl⟩ := List.mem_map.1 hx
    refine ⟨?_, sort_insertionSort_sorted less htot htr y⟩
    intro hnil
    have hp := sort_insertionSort_perm less y
    rw [hnil] at hp
    exact sort_blocks_ne_nil 20 (by omega) _ _ y hy hp.symm.eq_nil
  have hlen : ((sort.blocks 20 w.length w).map (sort.insertionSort less)).length ≤
      w.length + 1 := by
    have := sort_blocks_length 20 w.length w
    simp only [List.length_map]
    omega
  have h := (sort_mergeRounds_spec less htot htr w.length _ hinv hlen).2.2
  have h2 := sort_flatten_map_perm (sort.insertionSort less) (sort_insertionSort_perm less)
    (sort.blocks 20 w.length w)
  rw [sort_blocks_flatten 20 (by omega) w.length w (Nat.le_refl _)] at h2
  exact h.trans h2

theorem sort_Stable_sorted {α : Type} (less : α → α → Bool)
    (htot : ∀ a b, less a b = true ∨ less b a = true)
    (htr : ∀ a b c, less a b = true → less b c = true → less a c = true) (w : List α) :
    (sort.Stable less w).Pairwise (fun a b => less a b = true) := by
  unfold sort.Stable
  have hinv : ∀ x ∈ (sort.blocks 20 w.length w).map (sort.insertionSort less),
      x ≠ [] ∧ x.Pairwise (fun a b => less a b = true) := by
    intro x hx
    obtain ⟨y, hy, rfl⟩ := List.mem_map.1 hx
    refine ⟨?_, sort_insertionSort_sorted less htot htr y⟩
    intro hnil
    have hp := sort_insertionSort_perm less y
    rw [hnil] at hp
    exact sort_blocks_ne_nil 20 (by omega) _ _ y hy hp.symm.eq_nil
  have hlen : ((sort.blocks 20 w.length w).map (sort.insertionSort less)).length ≤
      w.length + 1 := by
    have := sort_blocks_length 20 w.length w
    simp only [List.length_map]
    omega
  obtain ⟨h1, h2, -⟩ := sort_mergeRounds_spec less htot htr w.length _ hinv hlen
  generalize sort.mergeRounds less w.length
    ((sort.blocks 20 w.length w).map (sort.insertionSort less)) = r at h1 h2
  match r, h1, h2 with
  | [], _, _ => simp
  | [x], _, h2 => simpa using h2 x (by simp)
  | _ :: _ :: _, h1, _ => simp at h1

/-! ## The order of the snippets -/

theorem Less_iff (a b : NomadServicesSnippet) :
    nomadSortableSnippet.Less a b = true ↔ a.Name ≤ b.Name := by
  simp [nomadSortableSnippet.Less]

theorem Less_total (a b : NomadServicesSnippet) :
    nomadSortableSnippet.Less a b = true ∨ nomadSortableSnippet.Less b a = true := by
  rw [Less_iff, Less_iff]
  exact le_total _ _

theorem Less_trans (a b c : NomadServicesSnippet) (h1 : nomadSortableSnippet.Less a b = true)
    (h2 : nomadSortableSnippet.Less b c = true) : nomadSortableSnippet.Less a c = true := by
  rw [Less_iff] at *
  exact le_trans h1 h2

theorem Stable_Less_perm (l : List NomadServicesSnippet) :
    (sort.Stable nomadSortableSnippet.Less l).Perm l :=
  sort_Stable_perm _ Less_total Less_trans l

theorem Stable_Less_sorted (l : List NomadServicesSnippet) :
    (sort.Stable nomadSortableSnippet.Less l).Pairwise (fun a b => a.Name ≤ b.Name) := by
  have h := sort_Stable_sorted _ Less_total Less_trans l
  exact h.imp (fun {a b} hab => (Less_iff a b).1 hab)

theorem sortByNameThenTag_perm (l : List NomadServicesSnippet) :
    (sortByNameThenTag l).Perm l :=
  List.perm_insertionSort _ l

theorem sortByNameThenTag_sorted (l : List NomadServicesSnippet) :
    (sortByNameThenTag l).Pairwise (fun a b => a.Name ≤ b.Name) := by
  have ht : IsTotal NomadServicesSnippet (fun a b => snippetKey a ≤ snippetKey b) :=
    ⟨fun a b => le_total _ _⟩
  have htr : IsTrans NomadServicesSnippet (fun a b => snippetKey a ≤ snippetKey b) :=
    ⟨fun a b c h1 h2 => le_trans h1 h2⟩
  have h : (sortByNameThenTag l).Pairwise (fun a b => snippetKey a ≤ snippetKey b) :=
    List.sorted_insertionSort _ l
  refine h.imp ?_
  intro a b hab
  rcases (Prod.Lex.le_iff _ _).1 hab with h1 | h1
  · exact le_of_lt h1
  · exact le_of_eq h1.1

theorem sorted_perm_unique (l1 l2 : List NomadServicesSnippet) (hp : l1.Perm l2)
    (hd : l2.Pairwise (fun a b => a.Name ≠ b.Name))
    (h1 : l1.Pairwise (fun a b => a.Name ≤ b.Name))
    (h2 : l2.Pairwise (fun a b => a.Name ≤ b.Name)) : l1 = l2 := by
  have hsymm : ∀ {a b : NomadServicesSnippet}, a.Name ≠ b.Name → b.Name ≠ a.Name :=
    fun h => Ne.symm h
  have hd1 : l1.Pairwise (fun a b => a.Name ≠ b.Name) := (hp.pairwise_iff hsymm).2 hd
  have s1 : l1.Pairwise (fun a b => a.Name < b.Name) :=
    (hd1.and h1).imp (fun {a b} h => lt_of_le_of_ne h.2 h.1)
  have s2 : l2.Pairwise (fun a b => a.Name < b.Name) :=
    (hd.and h2).imp (fun {a b} h => lt_of_le_of_ne h.2 h.1)
  have hanti : IsAntisymm NomadServicesSnippet (fun a b => a.Name < b.Name) :=
    ⟨fun a b hab hba => absurd hba (lt_asymm hab)⟩
  exact List.eq_of_perm_of_sorted hp s1 s2

/-- On a list of snippets with pairwise distinct names the comparator cannot
meet two equal names, and `sort.Stable` with it returns the list that a
standard stable sort on the key (name, then tag) returns. -/
theorem Stable_eq_sortByNameThenTag (l : List NomadServicesSnippet)
    (hd : l.Pairwise (fun a b => a.Name ≠ b.Name)) :
    sort.Stable nomadSortableSnippet.Less l = sortByNameThenTag l := by
  have hsymm : ∀ {a b : NomadServicesSnippet}, a.Name ≠ b.Name → b.Name ≠ a.Name :=
    fun h => Ne.symm h
  have hp : (sort.Stable nomadSortableSnippet.Less l).Perm (sortByNameThenTag l) :=
    (Stable_Less_perm l).trans (sortByNameThenTag_perm l).symm
  exact sorted_perm_unique _ _ hp
    (((sortByNameThenTag_perm l).pairwise_iff hsymm).2 hd)
    (Stable_Less_sorted l) (sortByNameThenTag_sorted l)

/-- The snippets `web` and `api`, whose names differ, are sorted alike by both. -/
theorem Stable_eq_sortByNameThenTag_witness :
    ([⟨"web", []⟩, ⟨"api", []⟩] : List NomadServicesSnippet).Pairwise
      (fun a b => a.Name ≠ b.Name) ∧
    sort.Stable nomadSortableSnippet.Less [⟨"web", []⟩, ⟨"api", []⟩] =
      sortByNameThenTag [⟨"web", []⟩, ⟨"api", []⟩] :=
  ⟨by decide, Stable_eq_sortByNameThenTag _ (by decide)⟩

/-- C15, the code at the failing input: two snippets of the same name `web`,
the first without tags and the second with the tag `canary`, are already in
the order of the key (name, then tag) and a standard stable sort leaves them
so, while `sort.Stable` with the comparator of the code, `Name <= Name`,
returns them in the opposite order; with the strict comparison `Name < Name`
the same routine leaves them in place. -/
theorem Stable_ne_sortByNameThenTag :
    sort.Stable nomadSortableSnippet.Less [⟨"web", []⟩, ⟨"web", ["canary"]⟩] =
      [⟨"web", ["canary"]⟩, ⟨"web", []⟩] ∧
    sortByNameThenTag [⟨"web", []⟩, ⟨"web", ["canary"]⟩] =
      [⟨"web", []⟩, ⟨"web", ["canary"]⟩] ∧
    sort.Stable nomadSortableSnippet.Less [⟨"web", []⟩, ⟨"web", ["canary"]⟩] ≠
      sortByNameThenTag [⟨"web", []⟩, ⟨"web", ["canary"]⟩] ∧
    sort.Stable (fun a b : NomadServicesSnippet => decide (a.Name < b.Name))
        [⟨"web", []⟩, ⟨"web", ["canary"]⟩] =
      sortByNameThenTag [⟨"web", []⟩, ⟨"web", ["canary"]⟩] := by
  have h1 : sort.Stable nomadSortableSnippet.Less [⟨"web", []⟩, ⟨"web", ["canary"]⟩] =
      [⟨"web", ["canary"]⟩, ⟨"web", []⟩] := by
    simp [sort.Stable, sort.blocks, sort.insertionSort, sort.insertLeft, sort.mergeRounds,
      nomadSortableSnippet.Less]
  have h2 : sortByNameThenTag [⟨"web", []⟩, ⟨"web", ["canary"]⟩] =
      [⟨"web", []⟩, ⟨"web", ["canary"]⟩] := by
    unfold sortByNameThenTag
    apply List.Sorted.insertionSort_eq
    simp only [List.Sorted, List.pairwise_cons, List.mem_singleton, forall_eq,
      List.not_mem_nil, false_implies, implies_true, List.Pairwise.nil, and_true]
    exact (Prod.Lex.le_iff _ _).2 (Or.inr ⟨rfl, List.nil_le⟩)
  have h3 : sort.Stable (fun a b : NomadServicesSnippet => decide (a.Name < b.Name))
      [⟨"web", []⟩, ⟨"web", ["canary"]⟩] = [⟨"web", []⟩, ⟨"web", ["canary"]⟩] := by
    simp [sort.Stable, sort.blocks, sort.insertionSort, sort.insertLeft, sort.mergeRounds]
  refine ⟨h1, h2, ?_, h3.trans h2.symm⟩
  rw [h1, h2]
  decide

theorem NomadServicesQuery_Fetch_ok (sortTags : ServiceTags → ServiceTags)
    (stable : (NomadServicesSnippet → NomadServicesSnippet → Bool) →
      List NomadServicesSnippet → List NomadServicesSnippet)
    (d : NomadServicesQuery) (clients : ClientSet) (opts : QueryOptions)
    (namespaces : List ServiceRegistrationListStub) (qm : QueryMeta) (hd : d.stopCh ≠ .closed)
    (h : clients.list (opts.Merge { Region := d.region }) = .ok (namespaces, qm)) :
    d.Fetch sortTags stable clients opts =
      { requests := [.list (opts.Merge { Region := d.region })]
        value := some (stable nomadSortableSnippet.Less
          ((selectNamespace clients.nomadNamespace namespaces).map (fun s =>
            ({ Name := s.ServiceName, Tags := sortTags s.Tags } : NomadServicesSnippet))))
        rm := some { LastIndex := qm.LastIndex, LastContact := qm.LastContact }
        err := none } := by
  simp only [NomadServicesQuery.Fetch, Chan_recvReady_of_ne_closed _ hd, h]
  rfl

theorem selectNamespace_first (ns : String) (pre post : List ServiceRegistrationListStub)
    (e : ServiceRegistrationListStub) (hpre : ∀ x ∈ pre, x.Namespace ≠ ns)
    (he : e.Namespace = ns) : selectNamespace ns (pre ++ e :: post) = e.Services := by
  induction pre with
  | nil => simp [selectNamespace, he]
  | cons x xs ih =>
    have hx : x.Namespace ≠ ns := hpre x (List.mem_cons_self _ _)
    simp only [List.cons_append, selectNamespace, hx, if_false]
    exact ih (fun y hy => hpre y (List.mem_cons_of_mem _ hy))

theorem selectNamespace_none (ns : String) (l : List ServiceRegistrationListStub)
    (h : ∀ x ∈ l, x.Namespace ≠ ns) : selectNamespace ns l = [] := by
  induction l with
  | nil => rfl
  | cons x xs ih =>
    have hx : x.Namespace ≠ ns := h x (List.mem_cons_self _ _)
    simp only [selectNamespace, hx, if_false]
    exact ih (fun y hy => h y (List.mem_cons_of_mem _ hy))

/-- C17: a successful `Fetch` of a `NomadServicesQuery` returns a permutation
of the snippets built from the entries of the selected namespace, in
non-decreasing order of `Name`. -/
theorem NomadServicesQuery_Fetch_sorted (sortTags : ServiceTags → ServiceTags)
    (d : NomadServicesQuery) (clients : ClientSet) (opts : QueryOptions)
    (namespaces : List ServiceRegistrationListStub) (qm : QueryMeta) (hd : d.stopCh ≠ .closed)
    (h : clients.list (opts.Merge { Region := d.region }) = .ok (namespaces, qm)) :
    ∃ out, (d.Fetch sortTags sort.Stable clients opts).value = some out ∧
      (d.Fetch sortTags sort.Stable clients opts).err = none ∧
      out.Perm ((selectNamespace clients.nomadNamespace namespaces).map (fun s =>
        ({ Name := s.ServiceName, Tags := sortTags s.Tags } : NomadServicesSnippet))) ∧
      out.Pairwise (fun a b => a.Name ≤ b.Name) := by
  rw [NomadServicesQuery_Fetch_ok sortTags sort.Stable d clients opts namespaces qm hd h]
  exact ⟨_, rfl, rfl, Stable_Less_perm _, Stable_Less_sorted _⟩

/-- Witness of C17: the query of `@us` answered with the two namespaces of
`sampleNamespaces`. -/
theorem NomadServicesQuery_Fetch_sorted_witness :
    (⟨.opened, "us"⟩ : NomadServicesQuery).stopCh ≠ .closed ∧
    ∃ out, ((⟨.opened, "us"⟩ : NomadServicesQuery).Fetch id sort.Stable
        (answeringClient [] sampleNamespaces ⟨7, 5⟩) {}).value = some out ∧
      out.Perm [⟨"web", []⟩, ⟨"api", []⟩] ∧
      out.Pairwise (fun a b => a.Name ≤ b.Name) :=
  let ⟨out, h1, _, h3, h4⟩ := NomadServicesQuery_Fetch_sorted id ⟨.opened, "us"⟩
    (answeringClient [] sampleNamespaces ⟨7, 5⟩) {} sampleNamespaces ⟨7, 5⟩ (by decide) rfl
  ⟨by decide, out, h1, h3, h4⟩

/-- C18: on a successful backend response the result of `Fetch` is built from
the services of the first list entry whose `Namespace` equals the client's
Nomad namespace, and from nothing else; when no entry matches, `Fetch`
succeeds with an empty snippet list. -/
theorem NomadServicesQuery_Fetch_namespace (sortTags : ServiceTags → ServiceTags)
    (d : NomadServicesQuery) (clients : ClientSet) (opts : QueryOptions)
    (namespaces : List ServiceRegistrationListStub) (qm : QueryMeta) (hd : d.stopCh ≠ .closed)
    (h : clients.list (opts.Merge { Region := d.region }) = .ok (namespaces, qm)) :
    (d.Fetch sortTags sort.Stable clients opts).err = none ∧
    (∀ pre e post, namespaces = pre ++ e :: post →
      (∀ x ∈ pre, x.Namespace ≠ clients.nomadNamespace) →
      e.Namespace = clients.nomadNamespace →
      (d.Fetch sortTags sort.Stable clients opts).value =
        some (sort.Stable nomadSortableSnippet.Less (e.Services.map (fun s =>
          ({ Name := s.ServiceName, Tags := sortTags s.Tags } : NomadServicesSnippet))))) ∧
    ((∀ x ∈ namespaces, x.Namespace ≠ clients.nomadNamespace) →
      (d.Fetch sortTags sort.Stable clients opts).value = some []) := by
  rw [NomadServicesQuery_Fetch_ok sortTags sort.Stable d clients opts namespaces qm hd h]
  refine ⟨rfl, ?_, ?_⟩
  · intro pre e post hn hpre he
    subst hn
    simp only [selectNamespace_first _ pre post e hpre he]
  · intro hnone
    simp only [selectNamespace_none _ namespaces hnone]
    rfl

/-- Witness of C18: the query of `@us` answered with the two namespaces of
`sampleNamespaces`, of which the second is the client's. -/
theorem NomadServicesQuery_Fetch_namespace_witness :
    ((⟨.opened, "us"⟩ : NomadServicesQuery).Fetch id sort.Stable
        (answeringClient [] sampleNamespaces ⟨7, 5⟩) {}).value =
      some (sort.Stable nomadSortableSnippet.Less [⟨"web", []⟩, ⟨"api", []⟩]) ∧
    ((⟨.opened, "us"⟩ : NomadServicesQuery).Fetch id sort.Stable
        (answeringClient [] [] ⟨7, 5⟩) {}).value = some [] :=
  ⟨(NomadServicesQuery_Fetch_namespace id ⟨.opened, "us"⟩
      (answeringClient [] sampleNamespaces ⟨7, 5⟩) {} sampleNamespaces ⟨7, 5⟩
      (by decide) rfl).2.1
      [{ Namespace := "other", Services := [{ ServiceName := "db", Tags := [] }] }]
      { Namespace := "default",
        Services := [{ ServiceName := "web", Tags := [] }, { ServiceName := "api", Tags := [] }] }
      [] rfl (by decide) rfl,
    (NomadServicesQuery_Fetch_namespace id ⟨.opened, "us"⟩
      (answeringClient [] [] ⟨7, 5⟩) {} [] ⟨7, 5⟩ (by decide) rfl).2.2
      (fun x hx => by cases hx)⟩


end ConsulTemplate
